import Mathlib

/-!
Verification development for the PipeCost repository (dbt/warehouse cost
attribution engine).

Embedding conventions:
* Python floats are modelled as rationals (`ℚ`); Python ints as `ℤ` / `Nat`.
* Python dicts (incl. `defaultdict`) are modelled as association lists in
  insertion order, which matches CPython's documented dict iteration order.
* `round(x, n)` (round-half-to-even) is modelled by `rhe` / `roundTo`.
* `datetime` values are modelled by their POSIX timestamp in seconds as `ℚ`;
  `(t2 - t1).total_seconds()` is then `t2 - t1`.
* `sorted(..)` (a stable sort) is modelled by `List.insertionSort`, which is
  stable with the corresponding "key ≤ key" relation.
* Exceptions are modelled with `Except PyErr`.
-/

set_option maxRecDepth 20000

/-! ### Generic helpers: Python dict / list operations -/

/-- `m.get(k, d)` on an association list (first match wins; dict keys are unique). -/
def lookupD {α : Type} : List (String × α) → String → α → α
  | [], _, d => d
  | (k2, v) :: rest, k, d => if k2 = k then v else lookupD rest k d

/-- `m.get(k)` returning an option. -/
def lookupOpt {α : Type} : List (String × α) → String → Option α
  | [], _ => none
  | (k2, v) :: rest, k => if k2 = k then some v else lookupOpt rest k

/-- Sum of the values of an association list (`sum(m.values())`). -/
def sumValues (m : List (String × ℚ)) : ℚ := (m.map (fun kv => kv.2)).sum

/-- `defaultdict(float)`-style accumulation: `m[k] += v`, inserting at the end
when the key is new (CPython dict insertion order). -/
def addTo : List (String × ℚ) → String → ℚ → List (String × ℚ)
  | [], k, v => [(k, v)]
  | (k2, v2) :: rest, k, v =>
      if k2 = k then (k2, v2 + v) :: rest else (k2, v2) :: addTo rest k v

/-- `defaultdict(list)`-style accumulation: `m[k].append(v)`. -/
def upsertApp {α : Type} : List (String × List α) → String → α → List (String × List α)
  | [], k, v => [(k, [v])]
  | (k2, vs) :: rest, k, v =>
      if k2 = k then (k2, vs ++ [v]) :: rest else (k2, vs) :: upsertApp rest k v

/-- Grouping a list of key/value pairs with a `defaultdict(list)` loop. -/
def groupPairs {α : Type} (ps : List (String × α)) : List (String × List α) :=
  ps.foldl (fun m p => upsertApp m p.1 p.2) []

/-- Keys of a list of pairs in first-occurrence order (dict key order). -/
def dedupFirst : List String → List String
  | [] => []
  | x :: xs => x :: (dedupFirst xs).filter (fun y => y ≠ x)

/-- `set.add` modelled on a duplicate-free list. -/
def insertSet (acc : List String) (x : String) : List String :=
  if x ∈ acc then acc else acc ++ [x]

/-! ### Generic helpers: strings and numbers -/

/-- Code-point lexicographic `≤` on char lists (Python string comparison). -/
def listLeb : List Char → List Char → Bool
  | [], _ => true
  | _ :: _, [] => false
  | a :: as, b :: bs =>
      if a.toNat < b.toNat then true
      else if b.toNat < a.toNat then false
      else listLeb as bs

/-- Code-point lexicographic `≤` on strings. -/
def strLeb (a b : String) : Bool := listLeb a.data b.data

/-- `sorted(..)` on strings. -/
def sortStrings (l : List String) : List String :=
  List.insertionSort (fun a b => strLeb a b = true) l

/-- `str.lower()` (ASCII case fold, which covers SQL identifiers). -/
def strLower (s : String) : String := String.mk (s.data.map Char.toLower)

/-- Floor of a rational (denominators are positive, so `Int` division floors). -/
def ratFloor (q : ℚ) : ℤ := q.num / (q.den : ℤ)

/-- Round half to even to the nearest integer: Python's `round(x)` / the
rounding mode of `round(x, n)` and `format(x, '.nf')`. -/
def rhe (q : ℚ) : ℤ :=
  let f := ratFloor q
  let r := q - (f : ℚ)
  if r < 1/2 then f else if 1/2 < r then f + 1 else if f % 2 = 0 then f else f + 1

/-- Python's `round(x, d)` on our rational model of floats. -/
def roundTo (d : Nat) (q : ℚ) : ℚ := ((rhe (q * (10 ^ d : ℚ)) : ℚ)) / (10 ^ d : ℚ)

/-- Python's `int(x)` on a float: truncation toward zero. -/
def intTrunc (q : ℚ) : ℤ :=
  if 0 ≤ q.num then ((q.num.toNat / q.den : ℕ) : ℤ)
  else -(((-q.num).toNat / q.den : ℕ) : ℤ)

/-- Decimal digit character. -/
def digitChar (d : Nat) : Char :=
  match d with
  | 0 => '0' | 1 => '1' | 2 => '2' | 3 => '3' | 4 => '4'
  | 5 => '5' | 6 => '6' | 7 => '7' | 8 => '8' | _ => '9'

/-- Decimal digits of a natural number (fuel-based so the kernel can reduce it). -/
def natReprAux : Nat → Nat → List Char
  | 0, _ => []
  | fuel + 1, n =>
      if n < 10 then [digitChar n] else natReprAux fuel (n / 10) ++ [digitChar (n % 10)]

/-- `str(n)` for a natural number. -/
def natRepr (n : Nat) : String := String.mk (natReprAux (n + 1) n)

/-- `str(i)` for an integer. -/
def intRepr (i : ℤ) : String :=
  if i < 0 then String.mk ('-' :: (natRepr i.natAbs).data) else natRepr i.natAbs

/-- Zero-pad a decimal string on the left to `d` characters. -/
def padZeros (s : String) (d : Nat) : String :=
  String.mk (List.replicate (d - s.data.length) '0' ++ s.data)

/-- Fixed-point rendering of `n / 10^d` with exactly `d` fractional digits. -/
def fmtScaled (n : ℤ) (d : Nat) : String :=
  if d = 0 then intRepr n
  else
    let sign := if n < 0 then "-" else ""
    let m := n.natAbs
    sign ++ natRepr (m / 10 ^ d) ++ "." ++ padZeros (natRepr (m % 10 ^ d)) d

/-- Python's `f"{q:.df}"` fixed-point float formatting (round half to even). -/
def fmtFixed (d : Nat) (q : ℚ) : String := fmtScaled (rhe (q * (10 ^ d : ℚ))) d

/-- `", ".join(names)`. -/
def joinComma (names : List String) : String := String.intercalate ", " names

/-! ### MD5 (`hashlib.md5(..).hexdigest()`), used by `parse_manifest` -/

/-- UTF-8 encoding of one character (`str.encode()`). -/
def utf8EncodeChar (c : Char) : List Nat :=
  let n := c.toNat
  if n < 128 then [n]
  else if n < 2048 then [192 + n / 64, 128 + n % 64]
  else if n < 65536 then [224 + n / 4096, 128 + (n / 64) % 64, 128 + n % 64]
  else [240 + n / 262144, 128 + (n / 4096) % 64, 128 + (n / 64) % 64, 128 + n % 64]

/-- UTF-8 bytes of a string (`raw.encode()`). -/
def utf8Bytes (s : String) : List Nat := s.data.flatMap utf8EncodeChar

/-- MD5 per-round sine-derived constants. -/
def md5K : List Nat :=
  [0xd76aa478, 0xe8c7b756, 0x242070db, 0xc1bdceee,
   0xf57c0faf, 0x4787c62a, 0xa8304613, 0xfd469501,
   0x698098d8, 0x8b44f7af, 0xffff5bb1, 0x895cd7be,
   0x6b901122, 0xfd987193, 0xa679438e, 0x49b40821,
   0xf61e2562, 0xc040b340, 0x265e5a51, 0xe9b6c7aa,
   0xd62f105d, 0x02441453, 0xd8a1e681, 0xe7d3fbc8,
   0x21e1cde6, 0xc33707d6, 0xf4d50d87, 0x455a14ed,
   0xa9e3e905, 0xfcefa3f8, 0x676f02d9, 0x8d2a4c8a,
   0xfffa3942, 0x8771f681, 0x6d9d6122, 0xfde5380c,
   0xa4beea44, 0x4bdecfa9, 0xf6bb4b60, 0xbebfbc70,
   0x289b7ec6, 0xeaa127fa, 0xd4ef3085, 0x04881d05,
   0xd9d4d039, 0xe6db99e5, 0x1fa27cf8, 0xc4ac5665,
   0xf4292244, 0x432aff97, 0xab9423a7, 0xfc93a039,
   0x655b59c3, 0x8f0ccc92, 0xffeff47d, 0x85845dd1,
   0x6fa87e4f, 0xfe2ce6e0, 0xa3014314, 0x4e0811a1,
   0xf7537e82, 0xbd3af235, 0x2ad7d2bb, 0xeb86d391]

/-- MD5 per-round left-rotation amounts. -/
def md5S : List Nat :=
  [7, 12, 17, 22, 7, 12, 17, 22, 7, 12, 17, 22, 7, 12, 17, 22,
   5, 9, 14, 20, 5, 9, 14, 20, 5, 9, 14, 20, 5, 9, 14, 20,
   4, 11, 16, 23, 4, 11, 16, 23, 4, 11, 16, 23, 4, 11, 16, 23,
   6, 10, 15, 21, 6, 10, 15, 21, 6, 10, 15, 21, 6, 10, 15, 21]

/-- 32-bit left rotation on a value `< 2^32`. -/
def leftrot (x n : Nat) : Nat := (x * 2 ^ n + x / 2 ^ (32 - n)) % 4294967296

/-- MD5 nonlinear function for round `i`. -/
def md5F (i b c d : Nat) : Nat :=
  if i < 16 then (b &&& c) ||| ((4294967295 - b) &&& d)
  else if i < 32 then (d &&& b) ||| ((4294967295 - d) &&& c)
  else if i < 48 then b ^^^ c ^^^ d
  else c ^^^ (b ||| (4294967295 - d))

/-- MD5 message-word index for round `i`. -/
def md5G (i : Nat) : Nat :=
  if i < 16 then i
  else if i < 32 then (5 * i + 1) % 16
  else if i < 48 then (3 * i + 5) % 16
  else (7 * i) % 16

/-- One MD5 round on the state `(a, b, c, d)`. -/
def md5Round (M : List Nat) (st : Nat × Nat × Nat × Nat) (i : Nat) : Nat × Nat × Nat × Nat :=
  match st with
  | (a, b, c, d) =>
    let f := (md5F i b c d + a + md5K.getD i 0 + M.getD (md5G i) 0) % 4294967296
    (d, (b + leftrot f (md5S.getD i 0)) % 4294967296, b, c)

/-- Process one 64-byte chunk. -/
def md5Chunk (st : Nat × Nat × Nat × Nat) (chunk : List Nat) : Nat × Nat × Nat × Nat :=
  let M := (List.range 16).map (fun j =>
    chunk.getD (4 * j) 0 + 256 * chunk.getD (4 * j + 1) 0 +
    65536 * chunk.getD (4 * j + 2) 0 + 16777216 * chunk.getD (4 * j + 3) 0)
  match st, (List.range 64).foldl (md5Round M) st with
  | (a0, b0, c0, d0), (a, b, c, d) =>
    ((a0 + a) % 4294967296, (b0 + b) % 4294967296, (c0 + c) % 4294967296, (d0 + d) % 4294967296)

/-- MD5 padding: `0x80`, zeros to 56 mod 64, then the 64-bit little-endian bit length. -/
def md5Pad (msg : List Nat) : List Nat :=
  let L := msg.length
  let padLen := (120 - ((L + 1) % 64)) % 64
  msg ++ [128] ++ List.replicate padLen 0 ++
    (List.range 8).map (fun i => (L * 8) % 18446744073709551616 / 256 ^ i % 256)

/-- Split into 64-byte chunks (fuel-based structural recursion). -/
def chunksAux : Nat → List Nat → List (List Nat)
  | 0, _ => []
  | _, [] => []
  | fuel + 1, l => l.take 64 :: chunksAux fuel (l.drop 64)

/-- All 64-byte chunks of a padded message. -/
def chunks64 (l : List Nat) : List (List Nat) := chunksAux l.length l

/-- Hex digit character (lowercase). -/
def hexChar (n : Nat) : Char :=
  match n with
  | 0 => '0' | 1 => '1' | 2 => '2' | 3 => '3' | 4 => '4' | 5 => '5' | 6 => '6' | 7 => '7'
  | 8 => '8' | 9 => '9' | 10 => 'a' | 11 => 'b' | 12 => 'c' | 13 => 'd' | 14 => 'e' | _ => 'f'

/-- Two-character hex rendering of a byte. -/
def byteHex (b : Nat) : List Char := [hexChar (b / 16), hexChar (b % 16)]

/-- `hashlib.md5(s.encode()).hexdigest()`. -/
def md5Hex (s : String) : String :=
  let msg := md5Pad (utf8Bytes s)
  match (chunks64 msg).foldl md5Chunk (0x67452301, 0xefcdab89, 0x98badcfe, 0x10325476) with
  | (a, b, c, d) =>
    String.mk (([a, b, c, d].flatMap (fun w => (List.range 4).map (fun i => w / 256 ^ i % 256))).flatMap byteHex)

/-- Sanity check of the MD5 embedding against the well-known empty-string digest. -/
theorem md5Hex_empty : md5Hex "" = "d41d8cd98f00b204e9800998ecf8427e" := by decide

/-! ### `pipecost.py` — data model -/

namespace Pipecost

/-- `@dataclass Model` from `pipecost.py`. -/
structure Model where
  name : String
  materialization : String
  sql_hash : String
  upstream : List String
  downstream : List String
deriving DecidableEq

/-- `@dataclass QueryRecord` from `pipecost.py`; `start_time` is the POSIX
timestamp of the `datetime` in seconds. -/
structure QueryRecord where
  model_name : String
  credits_used : ℚ
  start_time : ℚ
  warehouse : String
deriving DecidableEq

/-- `@dataclass Finding` from `pipecost.py`. -/
structure Finding where
  category : String
  severity : String
  model : String
  detail : String
  estimated_savings_pct : ℚ
  recommendation : String
deriving DecidableEq

/-- One manifest node as fed to `parse_manifest` (after `json.load`): the
fields the function reads. `raw_sql`/`raw_code` are `none` when the key is
absent; `materialized` is `none` when `config.materialized` is absent. -/
structure ManifestNode where
  resource_type : String
  name : String
  materialized : Option String
  raw_sql : Option String
  raw_code : Option String
  depends_on : List String
deriving DecidableEq

/-- `s.split(".")` on the character list. -/
def splitOnDotAux : List Char → List Char → List (List Char)
  | [], acc => [acc.reverse]
  | c :: rest, acc =>
      if c == '.' then acc.reverse :: splitOnDotAux rest []
      else splitOnDotAux rest (c :: acc)

/-- `d.split(".")[-1]`. -/
def lastComponent (d : String) : String := String.mk ((splitOnDotAux d.data []).getLastD [])

/-- First pass of `parse_manifest`: one `Model` from one manifest node. -/
def mkModel (node : ManifestNode) : Model :=
  let raw := node.raw_sql.getD (node.raw_code.getD "")
  { name := node.name
    materialization := node.materialized.getD "view"
    sql_hash := md5Hex raw
    upstream := node.depends_on.map lastComponent
    downstream := [] }

/-- Index of the last model with a given name (`name_map = {m.name: m}`:
for duplicate names the last assignment wins). -/
def lastIdxWithName (ms : List Model) (n : String) : Option Nat :=
  (List.range ms.length).foldl
    (fun acc i => if (ms.getD i (mkModel ⟨"", "", none, none, none, []⟩)).name = n then some i else acc)
    none

/-- Append `d` to the `downstream` list of the model at index `i`. -/
def appendDownAt : List Model → Nat → String → List Model
  | [], _, _ => []
  | m :: rest, 0, d =>
      { name := m.name, materialization := m.materialization, sql_hash := m.sql_hash,
        upstream := m.upstream, downstream := m.downstream ++ [d] } :: rest
  | m :: rest, i + 1, d => m :: appendDownAt rest i d

/-- Second pass of `parse_manifest`: `for m in models: for up in m.upstream:
if up in name_map: name_map[up].downstream.append(m.name)`.  `name_map[up]`
is the last model with name `up`; appending mutates that object in place,
which the returned list shares. -/
def secondPass (models : List Model) : List Model :=
  let pairs := models.flatMap (fun m => m.upstream.map (fun up => (up, m.name)))
  pairs.foldl
    (fun acc p => (lastIdxWithName models p.1).elim acc (fun i => appendDownAt acc i p.2))
    models

/-- `parse_manifest` from `pipecost.py` (after `json.load`; nodes are given in
dict iteration order, and their keys are unused by the function). -/
def parse_manifest (nodes : List ManifestNode) : List Model :=
  secondPass ((nodes.filter (fun n => n.resource_type = "model")).map mkModel)

/-! ### `pipecost.py` — detectors -/

/-- `_cost_map(queries)`: per-model credit totals and `sum(cm.values()) or 1.0`. -/
def _cost_map (queries : List QueryRecord) : List (String × ℚ) × ℚ :=
  let cm := queries.foldl (fun m q => addTo m q.model_name q.credits_used) []
  (cm, if sumValues cm = 0 then 1 else sumValues cm)

/-- Descending order on findings by estimated savings percentage. -/
def savGE (a b : Finding) : Prop := b.estimated_savings_pct ≤ a.estimated_savings_pct

instance : DecidableRel savGE := fun a b =>
  inferInstanceAs (Decidable (b.estimated_savings_pct ≤ a.estimated_savings_pct))

instance : IsTotal Finding savGE := ⟨fun a b => le_total b.estimated_savings_pct a.estimated_savings_pct⟩

instance : IsTrans Finding savGE := ⟨fun _ _ _ h1 h2 => le_trans h2 h1⟩

/-- `sorted(findings, key=lambda f: -f.estimated_savings_pct)` (stable). -/
def sortFindings (l : List Finding) : List Finding := List.insertionSort savGE l

/-- Detail string of a zombie finding. -/
def zombieDetail (pct cmv : ℚ) : String :=
  "Costs " ++ fmtFixed 1 pct ++ "% (" ++ fmtFixed 1 cmv ++ " credits), zero downstream"

/-- Recommendation string of a zombie finding. -/
def zombieRec (name : String) (pct : ℚ) : String :=
  "Archive '" ++ name ++ "' to save ~" ++ fmtFixed 1 pct ++ "%"

/-- The loop body of `detect_zombies`: the optional finding for one model. -/
def zombieFin (cmt : List (String × ℚ) × ℚ) (m : Model) : Option Finding :=
  if m.downstream ≠ [] ∨ lookupD cmt.1 m.name 0 ≤ 0 then none
  else
    let pct := lookupD cmt.1 m.name 0 / cmt.2 * 100
    if 1 ≤ pct then
      some { category := "zombie"
             severity := if 5 ≤ pct then "critical" else "warning"
             model := m.name
             detail := zombieDetail pct (lookupD cmt.1 m.name 0)
             estimated_savings_pct := roundTo 1 pct
             recommendation := zombieRec m.name pct }
    else none

/-- `detect_zombies(models, queries)` from `pipecost.py`. -/
def detect_zombies (models : List Model) (queries : List QueryRecord) : List Finding :=
  let cmt := _cost_map queries
  sortFindings (models.filterMap (zombieFin cmt))

/-- Ascending order on rationals, used for `sorted(times)`. -/
def sortQ (l : List ℚ) : List ℚ := List.insertionSort (fun a b => a ≤ b) l

/-- Consecutive-interval gaps in hours of a sorted list of timestamps
(`(ts[i+1] - ts[i]).total_seconds() / 3600`). -/
def gapsHours (ts : List ℚ) : List ℚ := List.zipWith (fun a b => (b - a) / 3600) ts ts.tail

/-- Average consecutive gap (hours) of an unsorted list of timestamps. -/
def avgGap (times : List ℚ) : ℚ :=
  let iv := gapsHours (sortQ times)
  iv.sum / (iv.length : ℚ)

/-- Detail string of an over-scheduling finding. -/
def overDetail (avg cmv : ℚ) : String :=
  "Every " ++ fmtFixed 1 avg ++ "h (" ++ fmtFixed 0 (24 / max avg (1/10)) ++ "x/day), " ++
    fmtFixed 1 cmv ++ " credits"

/-- Recommendation string of an over-scheduling finding. -/
def overRec (avg : ℚ) : String :=
  "Reduce to every " ++ fmtFixed 0 (max (avg * 4) 6) ++ "h + incremental"

/-- The loop body of `detect_over_scheduling`: the optional finding for one
group `(name, times)`. -/
def overFin (cmt : List (String × ℚ) × ℚ) (g : String × List ℚ) : Option Finding :=
  if g.2.length < 3 then none
  else
    let avg_h := avgGap g.2
    if avg_h ≤ 4 then
      some { category := "over_schedule"
             severity := if avg_h ≤ 1 then "critical" else "warning"
             model := g.1
             detail := overDetail avg_h (lookupD cmt.1 g.1 0)
             estimated_savings_pct := roundTo 1 (lookupD cmt.1 g.1 0 * (3/4) / cmt.2 * 100)
             recommendation := overRec avg_h }
    else none

/-- `detect_over_scheduling(models, queries)` from `pipecost.py` (the `models`
argument is unused by the source as well). -/
def detect_over_scheduling (_models : List Model) (queries : List QueryRecord) : List Finding :=
  let groups := groupPairs (queries.map (fun q => (q.model_name, q.start_time)))
  let cmt := _cost_map queries
  sortFindings (groups.filterMap (overFin cmt))

/-- Detail string of a redundant finding. -/
def redundantDetail (n : Nat) (cost : ℚ) : String :=
  natRepr n ++ " models, identical SQL, " ++ fmtFixed 1 cost ++ " credits"

/-- The loop body of `detect_redundant`: the optional finding for one group
`(hash, names)`. -/
def redFin (cmt : List (String × ℚ) × ℚ) (g : String × List String) : Option Finding :=
  if g.2.length < 2 then none
  else
    let cost := (g.2.map (fun n => lookupD cmt.1 n 0)).sum
    let sav := cost * ((g.2.length : ℚ) - 1) / (g.2.length : ℚ) / cmt.2 * 100
    some { category := "redundant"
           severity := if 5 < sav then "critical" else "warning"
           model := joinComma g.2
           detail := redundantDetail g.2.length cost
           estimated_savings_pct := roundTo 1 sav
           recommendation := "Consolidate into '" ++ g.2.headD "" ++ "'" }

/-- `detect_redundant(models, queries)` from `pipecost.py`. -/
def detect_redundant (models : List Model) (queries : List QueryRecord) : List Finding :=
  let groups := groupPairs ((models.filter (fun m => m.sql_hash ≠ "")).map (fun m => (m.sql_hash, m.name)))
  let cmt := _cost_map queries
  sortFindings (groups.filterMap (redFin cmt))

/-- The analysis report returned by `analyze` (the Python dict; the nested
`summary` counters are inlined as three fields). -/
structure Report where
  total_credits : ℚ
  findings : List Finding
  savings_pct : ℚ
  zombies : Nat
  over_scheduled : Nat
  redundant : Nat
deriving DecidableEq

/-- `analyze(models, queries)` from `pipecost.py`. -/
def analyze (models : List Model) (queries : List QueryRecord) : Report :=
  let z := detect_zombies models queries
  let o := detect_over_scheduling models queries
  let r := detect_redundant models queries
  let all_f := z ++ o ++ r
  let total_sav := min ((all_f.map (fun f => f.estimated_savings_pct)).sum) 75
  { total_credits := (queries.map (fun q => q.credits_used)).sum
    findings := all_f
    savings_pct := roundTo 1 total_sav
    zombies := z.length
    over_scheduled := o.length
    redundant := r.length }

end Pipecost

/-! ### `snowflake_parser.py` — JSON values and Python conversions -/

namespace Snowflake

/-- A parsed JSON value (`json.load` result). JSON numbers parse to Python
`int` or `float`, which we keep apart since `int()`/`str()` treat them
differently. -/
inductive Json where
  | null
  | bool (b : Bool)
  | int (n : ℤ)
  | float (q : ℚ)
  | str (s : String)
  | arr (items : List Json)
  | obj (fields : List (String × Json))

/-- The Python exceptions the embedded code can raise. -/
inductive PyErr where
  | valueError (msg : String)
  | typeError (msg : String)
  | attributeError (msg : String)
deriving DecidableEq

/-- `Except.isOk` as a boolean. -/
def exceptOk {ε α : Type} : Except ε α → Bool
  | .ok _ => true
  | .error _ => false

/-- `m[k] = v` dict assignment: overwrite in place, else append. -/
def dictInsert {α : Type} : List (String × α) → String → α → List (String × α)
  | [], k, v => [(k, v)]
  | (k2, v2) :: rest, k, v =>
      if k2 = k then (k2, v) :: rest else (k2, v2) :: dictInsert rest k v

/-- `row.get(k1, row.get(k2, dflt))`. -/
def get2 (fields : List (String × Json)) (k1 k2 : String) (dflt : Json) : Json :=
  match lookupOpt fields k1 with
  | some v => v
  | none => match lookupOpt fields k2 with | some v => v | none => dflt

/-- Digit value of a decimal digit character. -/
def dval (c : Char) : Nat := c.toNat - 48

/-- All characters are decimal digits. -/
def allDigits (l : List Char) : Bool := l.all (fun c => c.isDigit)

/-- Value of a nonempty digit string. -/
def digitsToNat (l : List Char) : Nat := l.foldl (fun acc c => acc * 10 + dval c) 0

/-- Strip leading and trailing whitespace. -/
def stripWs (l : List Char) : List Char :=
  ((l.dropWhile (fun c => c.isWhitespace)).reverse.dropWhile (fun c => c.isWhitespace)).reverse

/-- Python `int(s)` literal syntax: optional surrounding whitespace, optional
sign, decimal digits (digit-group underscores are not modelled). -/
def parseIntLit (s : String) : Option ℤ :=
  match stripWs s.data with
  | [] => none
  | '+' :: ds => if ds ≠ [] ∧ allDigits ds then some ((digitsToNat ds : ℤ)) else none
  | '-' :: ds => if ds ≠ [] ∧ allDigits ds then some (-(digitsToNat ds : ℤ)) else none
  | ds => if allDigits ds then some ((digitsToNat ds : ℤ)) else none

/-- Python `float(s)` literal syntax: optional sign, integer and/or fractional
digits, optional exponent (`inf`/`nan` are not modelled). -/
def parseFloatLit (s : String) : Option ℚ :=
  match stripWs s.data with
  | [] => none
  | l =>
    let sl := match l with
      | '+' :: r => ((1 : ℚ), r)
      | '-' :: r => ((-1 : ℚ), r)
      | r => ((1 : ℚ), r)
    let ip := sl.2.takeWhile (fun c => c.isDigit)
    let l2 := sl.2.dropWhile (fun c => c.isDigit)
    let fpl3 : Option (List Char) × List Char := match l2 with
      | '.' :: r => (some (r.takeWhile (fun c => c.isDigit)), r.dropWhile (fun c => c.isDigit))
      | r => (none, r)
    if ip = [] ∧ fpl3.1.getD [] = [] then none
    else
      let mant : ℚ := (digitsToNat ip : ℚ) +
        (match fpl3.1 with
         | some f => (digitsToNat f : ℚ) / (10 ^ f.length : ℚ)
         | none => 0)
      match fpl3.2 with
      | [] => some (sl.1 * mant)
      | 'e' :: r | 'E' :: r =>
          let er : ℤ × List Char := match r with
            | '+' :: rr => (1, rr)
            | '-' :: rr => (-1, rr)
            | rr => (1, rr)
          if er.2 ≠ [] ∧ allDigits er.2 then
            some (sl.1 * mant *
              (if er.1 = 1 then (10 ^ digitsToNat er.2 : ℚ) else 1 / (10 ^ digitsToNat er.2 : ℚ)))
          else none
      | _ => none

/-- Python `str(x)` on a JSON value. Scalar cases are exact; the textual form
of floats and containers is approximated (no claim depends on it). -/
def pyStr : Json → String
  | .null => "None"
  | .bool true => "True"
  | .bool false => "False"
  | .int n => intRepr n
  | .float q => if q.den = 1 then intRepr q.num ++ ".0" else intRepr q.num ++ "/" ++ natRepr q.den
  | .str s => s
  | .arr _ => "[...]"
  | .obj _ => "\x7b...\x7d"

/-- Python `int(x)` on a JSON value. -/
def pyInt : Json → Except PyErr ℤ
  | .int n => .ok n
  | .float q => .ok (intTrunc q)
  | .bool b => .ok (if b then 1 else 0)
  | .str s =>
      match parseIntLit s with
      | some n => .ok n
      | none => .error (.valueError ("invalid literal for int() with base 10: " ++ s))
  | .null => .error (.typeError "int() argument must not be None")
  | .arr _ => .error (.typeError "int() argument must be a string or a number")
  | .obj _ => .error (.typeError "int() argument must be a string or a number")

/-- Python `float(x)` on a JSON value. -/
def pyFloat : Json → Except PyErr ℚ
  | .int n => .ok (n : ℚ)
  | .float q => .ok q
  | .bool b => .ok (if b then 1 else 0)
  | .str s =>
      match parseFloatLit s with
      | some q => .ok q
      | none => .error (.valueError ("could not convert string to float: " ++ s))
  | .null => .error (.typeError "float() argument must not be None")
  | .arr _ => .error (.typeError "float() argument must be a string or a number")
  | .obj _ => .error (.typeError "float() argument must be a string or a number")

/-- The normalized query record produced by `parse_query_history`. -/
structure NormRecord where
  query_id : String
  query_text : String
  warehouse_name : String
  bytes_scanned : ℤ
  credits_used : ℚ
  execution_time : ℤ
  start_time : String
deriving DecidableEq

/-- Normalization of one raw record (the dict literal inside the loop of
`parse_query_history`); a non-dict row has no `.get`. Conversions run in
source order, so the first failing numeric field raises. -/
def normalizeRow (row : Json) : Except PyErr NormRecord :=
  match row with
  | .obj fields => do
      let bytes_scanned ← pyInt (get2 fields "BYTES_SCANNED" "bytes_scanned" (.int 0))
      let credits_used ← pyFloat (get2 fields "CREDITS_USED" "credits_used" (.float 0))
      let execution_time ← pyInt (get2 fields "EXECUTION_TIME" "execution_time" (.int 0))
      pure
        { query_id := pyStr (get2 fields "QUERY_ID" "query_id" (.str ""))
          query_text := pyStr (get2 fields "QUERY_TEXT" "query_text" (.str ""))
          warehouse_name := pyStr (get2 fields "WAREHOUSE_NAME" "warehouse_name" (.str ""))
          bytes_scanned := bytes_scanned
          credits_used := credits_used
          execution_time := execution_time
          start_time := pyStr (get2 fields "START_TIME" "start_time" (.str "")) }
  | _ => .error (.attributeError "row object has no attribute get")

/-- The normalization loop of `parse_query_history`: results are appended in
order and the first exception aborts the whole call. -/
def normalizeAll : List Json → Except PyErr (List NormRecord)
  | [] => .ok []
  | r :: rest => do
      let x ← normalizeRow r
      let xs ← normalizeAll rest
      pure (x :: xs)

/-- `parse_query_history` from `snowflake_parser.py`, after `json.load`. -/
def parse_query_history (raw : Json) : Except PyErr (List NormRecord) :=
  match raw with
  | .arr rows => normalizeAll rows
  | _ => .error (.valueError "Expected a JSON array of query records")

/-- All conversions of one row succeed (used to characterize when
`parse_query_history` succeeds on array input). -/
def rowConvOk (row : Json) : Bool :=
  match row with
  | .obj fields =>
      exceptOk (pyInt (get2 fields "BYTES_SCANNED" "bytes_scanned" (.int 0))) &&
      exceptOk (pyFloat (get2 fields "CREDITS_USED" "credits_used" (.float 0))) &&
      exceptOk (pyInt (get2 fields "EXECUTION_TIME" "execution_time" (.int 0)))
  | _ => false

end Snowflake

namespace Snowflake

/-! ### `snowflake_parser.py` — model-name extraction and matching -/

/-- One manifest node as read by `_extract_model_names_from_manifest`
(the `alias` field is called `aliasName` because `alias` is reserved in Lean;
`aliasName = none` models an absent key, and `schema = ""` an absent schema). -/
structure SFNode where
  resource_type : String
  name : String
  aliasName : Option String
  schema : String
deriving DecidableEq

/-- Python truthiness of `node.get("alias")` plus the case-insensitive
distinctness check `alias and alias.lower() != name.lower()`. -/
def aliasUsable (node : SFNode) : Bool :=
  match node.aliasName with
  | some a => a ≠ "" && strLower a ≠ strLower node.name
  | none => false

/-- The alias string (only meaningful when `aliasUsable`). -/
def aliasStr (node : SFNode) : String := node.aliasName.getD ""

/-- `_extract_model_names_from_manifest` from `snowflake_parser.py`: lookup
from lowercased patterns to canonical model names, in dict insertion order. -/
def _extract_model_names_from_manifest (nodes : List SFNode) : List (String × String) :=
  nodes.foldl
    (fun mm node =>
      if node.resource_type ≠ "model" then mm
      else
        let name := node.name
        let mm := dictInsert mm (strLower name) name
        let mm := if aliasUsable node then dictInsert mm (strLower (aliasStr node)) name else mm
        if node.schema ≠ "" then
          let mm := dictInsert mm (strLower node.schema ++ "." ++ strLower name) name
          if aliasUsable node then
            dictInsert mm (strLower node.schema ++ "." ++ strLower (aliasStr node)) name
          else mm
        else mm)
    []

/-- Python's `\w` word character (ASCII range, which covers SQL identifiers). -/
def isWordChar (c : Char) : Bool := c.isAlphanum || c == '_'

/-- Whether position `i` of `t` holds a word character (out of range: no). -/
def wordAt (t : List Char) (i : Nat) : Bool :=
  match t[i]? with
  | some c => isWordChar c
  | none => false

/-- Whether the character before position `i` is a word character. -/
def wordBefore (t : List Char) : Nat → Bool
  | 0 => false
  | j + 1 => wordAt t j

/-- A `\b` word boundary at position `i` of `t` (`0 ≤ i ≤ t.length`). -/
def boundaryAt (t : List Char) (i : Nat) : Bool := wordBefore t i != wordAt t i

/-- The pattern `p` occurs verbatim at position `i` of `t`. -/
def occursAt (p t : List Char) (i : Nat) : Bool := decide ((t.drop i).take p.length = p)

/-- `re.search(r"\b" + re.escape(p) + r"\b", t)` succeeds: the escaped pattern
occurs somewhere in `t` between word boundaries. -/
def wbMatchL (p t : List Char) : Bool :=
  (List.range (t.length + 1)).any
    (fun i => occursAt p t i && boundaryAt t i && boundaryAt t (i + p.length))

/-- Word-boundary regex search on strings. -/
def wbMatch (p t : String) : Bool := wbMatchL p.data t.data

/-- `_match_query_to_models` from `snowflake_parser.py`: all canonical model
names one of whose patterns word-boundary-matches the lowercased query text,
collected into a set over longest-first patterns and returned sorted. -/
def _match_query_to_models (query_text : String) (model_map : List (String × String)) : List String :=
  let query_lower := strLower query_text
  let pats := List.insertionSort (fun a b : String × String => b.1.length ≤ a.1.length) model_map
  let matched := pats.foldl
    (fun acc pm => if wbMatch pm.1 query_lower then insertSet acc pm.2 else acc) []
  sortStrings matched

/-! ### `snowflake_parser.py` — cost attribution -/

/-- One entry of `CostAttribution.queries`. -/
structure AttrQuery where
  query_id : String
  credits_share : ℚ
  start_time : String
deriving DecidableEq

/-- `@dataclass CostAttribution` from `snowflake_parser.py`. -/
structure CostAttribution where
  model_name : String
  total_credits : ℚ
  query_count : Nat
  total_bytes_scanned : ℤ
  avg_execution_time : ℚ
  warehouses : List String
  queries : List AttrQuery
deriving DecidableEq

/-- `CostAttribution(model_name=name)`: all other fields default. -/
def freshCA (name : String) : CostAttribution := ⟨name, 0, 0, 0, 0, [], []⟩

/-- `attributions[name]` update: create the entry if missing (appended in dict
order), then apply the mutation `u` to it. -/
def updOne (u : CostAttribution → CostAttribution) (name : String) :
    List (String × CostAttribution) → List (String × CostAttribution)
  | [] => [(name, u (freshCA name))]
  | (k, a) :: rest =>
      if k = name then (k, u a) :: rest else (k, a) :: updOne u name rest

/-- The matched-model list actually attributed: `["__unattributed__"]` when
no model matches. -/
def effMatches (model_map : List (String × String)) (q : NormRecord) : List String :=
  let matched := _match_query_to_models q.query_text model_map
  if matched = [] then ["__unattributed__"] else matched

/-- The per-model mutation performed for one query `q` with credit share
`share`: accumulate credits, count, bytes, per-event record, warehouse. -/
def applyQ (q : NormRecord) (share : ℚ) (a : CostAttribution) : CostAttribution :=
  { model_name := a.model_name
    total_credits := a.total_credits + q.credits_used * share
    query_count := a.query_count + 1
    total_bytes_scanned := a.total_bytes_scanned + intTrunc ((q.bytes_scanned : ℚ) * share)
    avg_execution_time := a.avg_execution_time
    warehouses := a.warehouses ++ (if q.warehouse_name ≠ "" then [q.warehouse_name] else [])
    queries := a.queries ++ [⟨q.query_id, roundTo 6 (q.credits_used * share), q.start_time⟩] }

/-- Processing of one query inside `attribute_cost_to_model`'s main loop:
updates the attribution dict and the per-model `exec_times` dict. -/
def stepQuery (model_map : List (String × String))
    (st : List (String × CostAttribution) × List (String × List ℤ)) (q : NormRecord) :
    List (String × CostAttribution) × List (String × List ℤ) :=
  let matched := effMatches model_map q
  let share : ℚ := 1 / (matched.length : ℚ)
  (matched.foldl (fun att n => updOne (applyQ q share) n att) st.1,
   matched.foldl (fun et n => upsertApp et n q.execution_time) st.2)

/-- `a` with its `avg_execution_time` replaced by `v`. -/
def updAvg (a : CostAttribution) (v : ℚ) : CostAttribution :=
  { model_name := a.model_name, total_credits := a.total_credits,
    query_count := a.query_count, total_bytes_scanned := a.total_bytes_scanned,
    avg_execution_time := v, warehouses := a.warehouses, queries := a.queries }

/-- Overwrite the `avg_execution_time` of the entry for `n`. -/
def setAvg (att : List (String × CostAttribution)) (n : String) (v : ℚ) :
    List (String × CostAttribution) :=
  att.map (fun kv => if kv.1 = n then (kv.1, updAvg kv.2 v) else kv)

/-- Final pass of `attribute_cost_to_model`: set mean execution times. -/
def avgPass (att : List (String × CostAttribution)) (et : List (String × List ℤ)) :
    List (String × CostAttribution) :=
  et.foldl
    (fun a kv =>
      if (lookupOpt a kv.1).isSome ∧ kv.2 ≠ [] then
        setAvg a kv.1 (((kv.2.map (fun t => (t : ℚ))).sum) / (kv.2.length : ℚ))
      else a)
    att

/-- `attribute_cost_to_model` from `snowflake_parser.py` (manifest given as
its node list). -/
def attribute_cost_to_model (queries : List NormRecord) (manifest : List SFNode) :
    List (String × CostAttribution) :=
  let model_map := _extract_model_names_from_manifest manifest
  let st := queries.foldl (stepQuery model_map) ([], [])
  avgPass st.1 st.2

/-! ### `snowflake_parser.py` — monthly breakdown -/

/-- Days in a calendar month (with Gregorian leap years), as validated by
`datetime.fromisoformat`. -/
def daysInMonth (y m : Nat) : Nat :=
  if m = 2 then (if (y % 4 = 0 ∧ y % 100 ≠ 0) ∨ y % 400 = 0 then 29 else 28)
  else if m = 4 ∨ m = 6 ∨ m = 9 ∨ m = 11 then 30 else 31

/-- Parse exactly two digits. -/
def parse2 : List Char → Option (Nat × List Char)
  | a :: b :: rest =>
      if a.isDigit && b.isDigit then some (dval a * 10 + dval b, rest) else none
  | _ => none

/-- Fractional seconds: exactly 3 or 6 digits (CPython ≤ 3.10 `fromisoformat`). -/
def parseFracDigits (l : List Char) : Option (List Char) :=
  match l with
  | a :: b :: c :: d :: e :: f :: rest =>
      if allDigits [a, b, c, d, e, f] then some rest
      else if allDigits [a, b, c] then some (d :: e :: f :: rest) else none
  | a :: b :: c :: rest => if allDigits [a, b, c] then some rest else none
  | _ => none

/-- Optional `:SS[.frac]` component; passes the remainder through. -/
def parseSec : List Char → Option (List Char)
  | ':' :: rest =>
      match parse2 rest with
      | some (s, rest2) =>
          if s < 60 then
            match rest2 with
            | '.' :: rest3 => parseFracDigits rest3
            | _ => some rest2
          else none
      | none => none
  | rest => some rest

/-- UTC-offset suffix `[+-]HH:MM[:SS[.frac]]` or nothing. -/
def parseTz : List Char → Bool
  | [] => true
  | c :: rest =>
      (c == '+' || c == '-') &&
      match parse2 rest with
      | some (h, ':' :: r2) =>
          h < 24 &&
          match parse2 r2 with
          | some (m, r3) =>
              m < 60 && (match parseSec r3 with | some [] => true | _ => false)
          | none => false
      | _ => false

/-- Optional `:MM` (followed by optional seconds); passes the remainder through. -/
def parseOptMin : List Char → Option (List Char)
  | ':' :: r =>
      match parse2 r with
      | some (m, r2) => if m < 60 then parseSec r2 else none
      | none => none
  | l => some l

/-- A valid `HH[:MM[:SS[.frac]]][offset]` time string. -/
def validTimePart (l : List Char) : Bool :=
  match parse2 l with
  | some (h, r) =>
      h < 24 && (match parseOptMin r with | some r2 => parseTz r2 | none => false)
  | none => false

/-- `datetime.fromisoformat` (CPython ≤ 3.10 grammar), keeping only the
year/month needed by `strftime("%Y-%m")`; `none` models `ValueError`. -/
def fromisoformatYM (cs : List Char) : Option (Nat × Nat) :=
  match cs with
  | y1 :: y2 :: y3 :: y4 :: '-' :: m1 :: m2 :: '-' :: d1 :: d2 :: rest =>
      if allDigits [y1, y2, y3, y4, m1, m2, d1, d2] then
        let y := dval y1 * 1000 + dval y2 * 100 + dval y3 * 10 + dval y4
        let m := dval m1 * 10 + dval m2
        let d := dval d1 * 10 + dval d2
        if 1 ≤ y ∧ 1 ≤ m ∧ m ≤ 12 ∧ 1 ≤ d ∧ d ≤ daysInMonth y m then
          match rest with
          | [] => some (y, m)
          | _sep :: t => if validTimePart t then some (y, m) else none
        else none
      else none
  | _ => none

/-- `start.replace("Z", "+00:00")` (single-character pattern). -/
def replaceZ (s : String) : String :=
  String.mk (s.data.flatMap (fun c => if c == 'Z' then ['+', '0', '0', ':', '0', '0'] else [c]))

/-- `dt.strftime("%Y-%m")`. -/
def fmtYM (y m : Nat) : String := padZeros (natRepr y) 4 ++ "-" ++ padZeros (natRepr m) 2

/-- The month bucket assigned to one per-event start-time string inside
`calculate_monthly_breakdown`: `"unknown"` for empty or unparsable input. -/
def monthKeyOf (start : String) : String :=
  if start = "" then "unknown"
  else
    match fromisoformatYM (replaceZ start).data with
    | some ym => fmtYM ym.1 ym.2
    | none => "unknown"

/-- `monthly[month_key][model_name] += credits_share` nested accumulation. -/
def addToNested : List (String × List (String × ℚ)) → String → String → ℚ →
    List (String × List (String × ℚ))
  | [], k1, k2, v => [(k1, [(k2, v)])]
  | (k, inner) :: rest, k1, k2, v =>
      if k = k1 then (k, addTo inner k2 v) :: rest
      else (k, inner) :: addToNested rest k1 k2 v

/-- The `monthly` nested dict built by `calculate_monthly_breakdown`. -/
def monthly_buckets (attributions : List (String × CostAttribution)) :
    List (String × List (String × ℚ)) :=
  attributions.foldl
    (fun acc kv =>
      kv.2.queries.foldl
        (fun acc2 q => addToNested acc2 (monthKeyOf q.start_time) kv.1 q.credits_share) acc)
    []

/-- One ranked entry of a month's `top_models`. -/
structure TopModelEntry where
  model : String
  credits : ℚ
  pct : ℚ
deriving DecidableEq

/-- One month's entry in the breakdown. -/
structure MonthEntry where
  total_credits : ℚ
  top_models : List TopModelEntry
deriving DecidableEq

/-- The structure returned by `calculate_monthly_breakdown`. -/
structure Breakdown where
  total_credits : ℚ
  months : List (String × MonthEntry)
deriving DecidableEq

/-- One month's entry: total, ranking (stable descending by credits, truncated
to `top_n`), and percentage share guarded against a non-positive total. -/
def mkMonthEntry (top_n : Nat) (bucket : List (String × ℚ)) : MonthEntry :=
  let month_total := sumValues bucket
  let ranked := (List.insertionSort (fun a b : String × ℚ => b.2 ≤ a.2) bucket).take top_n
  { total_credits := roundTo 4 month_total
    top_models := ranked.map (fun nc =>
      { model := nc.1
        credits := roundTo 4 nc.2
        pct := roundTo 2 (if 0 < month_total then nc.2 / month_total * 100 else 0) }) }

/-- `calculate_monthly_breakdown` from `snowflake_parser.py`. -/
def calculate_monthly_breakdown (attributions : List (String × CostAttribution))
    (top_n : Nat) : Breakdown :=
  let monthly := monthly_buckets attributions
  { total_credits := roundTo 4 ((attributions.map (fun kv => kv.2.total_credits)).sum)
    months := (sortStrings (monthly.map (fun kv => kv.1))).map
      (fun mk => (mk, mkMonthEntry top_n (lookupD monthly mk []))) }

end Snowflake

/-! ### Arithmetic lemmas about the rounding model -/

/-- A rational with (at most) one decimal digit. -/
def Tenth (q : ℚ) : Prop := ∃ n : ℤ, q = (n : ℚ) / 10

theorem ratFloor_intCast (n : ℤ) : ratFloor (n : ℚ) = n := by
  unfold ratFloor
  rw [Rat.num_intCast, Rat.den_intCast]
  simp

theorem rhe_intCast (n : ℤ) : rhe (n : ℚ) = n := by
  unfold rhe
  rw [ratFloor_intCast]
  norm_num

theorem Tenth_roundTo1 (q : ℚ) : Tenth (roundTo 1 q) := by
  refine ⟨rhe (q * 10 ^ 1), ?_⟩
  unfold roundTo
  norm_num

theorem roundTo1_of_Tenth {q : ℚ} (h : Tenth q) : roundTo 1 q = q := by
  obtain ⟨n, rfl⟩ := h
  unfold roundTo
  have h10 : ((n : ℚ) / 10) * 10 ^ 1 = (n : ℚ) := by
    field_simp
  rw [h10, rhe_intCast]
  norm_num

theorem Tenth_add {a b : ℚ} (ha : Tenth a) (hb : Tenth b) : Tenth (a + b) := by
  obtain ⟨n, rfl⟩ := ha
  obtain ⟨m, rfl⟩ := hb
  exact ⟨n + m, by push_cast; ring⟩

theorem Tenth_zero : Tenth 0 := ⟨0, by norm_num⟩

theorem Tenth_sum {l : List ℚ} (h : ∀ q ∈ l, Tenth q) : Tenth l.sum := by
  induction l with
  | nil => simpa using Tenth_zero
  | cons a l ih =>
      rw [List.sum_cons]
      exact Tenth_add (h a (List.mem_cons_self a l)) (ih fun q hq => h q (List.mem_cons_of_mem a hq))

theorem Tenth_min75 {q : ℚ} (h : Tenth q) : Tenth (min q 75) := by
  rcases le_total q 75 with h1 | h1
  · rwa [min_eq_left h1]
  · rw [min_eq_right h1]; exact ⟨750, by norm_num⟩

/-! ### Sorting lemmas for findings -/

namespace Pipecost

theorem sortFindings_perm (l : List Finding) : List.Perm (sortFindings l) l :=
  List.perm_insertionSort savGE l

theorem sortFindings_pairwise (l : List Finding) : List.Pairwise savGE (sortFindings l) :=
  List.sorted_insertionSort savGE l

theorem mem_sortFindings {f : Finding} {l : List Finding} :
    f ∈ sortFindings l ↔ f ∈ l := (sortFindings_perm l).mem_iff

/-- All three detectors only emit savings percentages produced by `round(x, 1)`. -/
theorem detect_zombies_tenth (models : List Model) (queries : List QueryRecord) :
    ∀ f ∈ detect_zombies models queries, Tenth f.estimated_savings_pct := by
  intro f hf
  unfold detect_zombies at hf
  rw [mem_sortFindings, List.mem_filterMap] at hf
  obtain ⟨m, _, hm⟩ := hf
  unfold zombieFin at hm
  dsimp only at hm
  split at hm
  · exact absurd hm (by simp)
  · split at hm
    · cases hm; exact Tenth_roundTo1 _
    · exact absurd hm (by simp)

theorem detect_over_scheduling_tenth (models : List Model) (queries : List QueryRecord) :
    ∀ f ∈ detect_over_scheduling models queries, Tenth f.estimated_savings_pct := by
  intro f hf
  unfold detect_over_scheduling at hf
  rw [mem_sortFindings, List.mem_filterMap] at hf
  obtain ⟨g, _, hg⟩ := hf
  unfold overFin at hg
  dsimp only at hg
  split at hg
  · exact absurd hg (by simp)
  · split at hg
    · cases hg; exact Tenth_roundTo1 _
    · exact absurd hg (by simp)

theorem detect_redundant_tenth (models : List Model) (queries : List QueryRecord) :
    ∀ f ∈ detect_redundant models queries, Tenth f.estimated_savings_pct := by
  intro f hf
  unfold detect_redundant at hf
  rw [mem_sortFindings, List.mem_filterMap] at hf
  obtain ⟨g, _, hg⟩ := hf
  unfold redFin at hg
  dsimp only at hg
  split at hg
  · exact absurd hg (by simp)
  · cases hg; exact Tenth_roundTo1 _

end Pipecost

/-! ### Claims C6 and C7: the report assembler -/

namespace Pipecost

/-- C6 (amended): `analyze` presents its findings as the concatenation of the
three detectors' outputs — zombies, then over-scheduled, then redundant — each
internally sorted by descending estimated savings percentage; the
concatenation is not globally re-sorted across categories. -/
theorem claim_C6 : ∀ (models : List Model) (queries : List QueryRecord),
    (analyze models queries).findings =
      detect_zombies models queries ++ detect_over_scheduling models queries ++
        detect_redundant models queries
    ∧ List.Pairwise savGE (detect_zombies models queries)
    ∧ List.Pairwise savGE (detect_over_scheduling models queries)
    ∧ List.Pairwise savGE (detect_redundant models queries) := by
  intro models queries
  refine ⟨rfl, ?_, ?_, ?_⟩
  · unfold detect_zombies
    exact sortFindings_pairwise _
  · unfold detect_over_scheduling
    exact sortFindings_pairwise _
  · unfold detect_redundant
    exact sortFindings_pairwise _

/-- Input exhibiting the ordering violation: a zombie finding of 10% precedes
an over-scheduling finding of 67.5% in the report's findings list. -/
def cexC6_models : List Model :=
  [⟨"z", "table", "hz", [], []⟩, ⟨"o", "table", "ho", [], ["x"]⟩]

/-- Queries for the ordering violation: `z` runs once (10 credits), `o` runs
hourly three times (90 credits total). -/
def cexC6_queries : List QueryRecord :=
  [⟨"z", 10, 0, "default"⟩, ⟨"o", 30, 0, "default"⟩,
   ⟨"o", 30, 3600, "default"⟩, ⟨"o", 30, 7200, "default"⟩]

/-- C6 counterexample: the report's findings list is not ordered by descending
savings — the first finding has 10.0%, the second 67.5%. -/
theorem claim_C6_counterexample :
    (analyze cexC6_models cexC6_queries).findings.map (fun f => f.estimated_savings_pct) =
      [10, 135/2]
    ∧ ¬ List.Pairwise savGE (analyze cexC6_models cexC6_queries).findings := by
  constructor
  · with_unfolding_all decide
  · with_unfolding_all decide

/-- C7 (confirmed): the report's overall savings percentage equals the sum of
all findings' estimated savings percentages clamped to at most 75.0, and in
particular is always at most 75. -/
theorem claim_C7 : ∀ (models : List Model) (queries : List QueryRecord),
    (analyze models queries).savings_pct =
      min (((analyze models queries).findings.map (fun f => f.estimated_savings_pct)).sum) 75
    ∧ (analyze models queries).savings_pct ≤ 75 := by
  intro models queries
  have hfind : (analyze models queries).findings =
      detect_zombies models queries ++ detect_over_scheduling models queries ++
        detect_redundant models queries := rfl
  have hT : Tenth (((analyze models queries).findings.map
      (fun f => f.estimated_savings_pct)).sum) := by
    apply Tenth_sum
    intro q hq
    rw [List.mem_map] at hq
    obtain ⟨f, hf, rfl⟩ := hq
    rw [hfind, List.mem_append, List.mem_append] at hf
    rcases hf with (hf | hf) | hf
    · exact detect_zombies_tenth _ _ f hf
    · exact detect_over_scheduling_tenth _ _ f hf
    · exact detect_redundant_tenth _ _ f hf
  have heq : (analyze models queries).savings_pct =
      roundTo 1 (min (((analyze models queries).findings.map
        (fun f => f.estimated_savings_pct)).sum) 75) := rfl
  rw [heq, roundTo1_of_Tenth (Tenth_min75 hT)]
  exact ⟨rfl, min_le_right _ _⟩

end Pipecost


/-! ### Claim C10: the manifest graph edge invariant -/

namespace Pipecost

theorem appendDownAt_names (ms : List Model) (i : Nat) (d : String) :
    (appendDownAt ms i d).map (fun m => m.name) = ms.map (fun m => m.name) := by
  induction ms generalizing i with
  | nil => rfl
  | cons m rest ih =>
      cases i with
      | zero => rfl
      | succ j => simp only [appendDownAt, List.map_cons, ih]

/-- Every downstream entry of every model is in `names`. -/
def DownOK (ms : List Model) (names : List String) : Prop :=
  ∀ m ∈ ms, ∀ d ∈ m.downstream, d ∈ names

theorem DownOK_nil (names : List String) : DownOK [] names := by
  intro m hm; cases hm

theorem DownOK_cons {m : Model} {rest : List Model} {names : List String}
    (h : DownOK (m :: rest) names) : DownOK rest names :=
  fun m2 hm2 => h m2 (List.mem_cons_of_mem m hm2)

theorem DownOK_appendDownAt :
    ∀ (ms : List Model) (names : List String) (i : Nat) (d : String),
      DownOK ms names → d ∈ names → DownOK (appendDownAt ms i d) names
  | [], _, _, _, _, _ => by intro m hm; cases hm
  | m :: rest, names, 0, d, h, hd => by
      intro m2 hm2 d2 hd2
      rcases List.mem_cons.mp hm2 with rfl | hm2
      · rcases List.mem_append.mp hd2 with hd2 | hd2
        · exact h m (List.mem_cons_self m rest) d2 hd2
        · rcases List.mem_singleton.mp hd2 with rfl
          exact hd
      · exact DownOK_cons h m2 hm2 d2 hd2
  | m :: rest, names, i + 1, d, h, hd => by
      intro m2 hm2 d2 hd2
      rcases List.mem_cons.mp hm2 with rfl | hm2
      · exact h m2 (List.mem_cons_self m2 rest) d2 hd2
      · exact DownOK_appendDownAt rest names i d (DownOK_cons h) hd m2 hm2 d2 hd2

/-- The inner-loop body of `secondPass`. -/
def spStep (ms : List Model) (acc : List Model) (p : String × String) : List Model :=
  (lastIdxWithName ms p.1).elim acc (fun i => appendDownAt acc i p.2)

theorem spStep_eq (ms : List Model) (acc : List Model) (p : String × String) :
    (lastIdxWithName ms p.1).elim acc (fun i => appendDownAt acc i p.2) = spStep ms acc p := rfl

theorem spStep_names (ms : List Model) (acc : List Model) (p : String × String) :
    (spStep ms acc p).map (fun m => m.name) = acc.map (fun m => m.name) := by
  unfold spStep
  rcases lastIdxWithName ms p.1 with _ | i
  · rfl
  · exact appendDownAt_names acc i p.2

theorem spStep_downOK {ms acc : List Model} {names : List String} (p : String × String)
    (h : DownOK acc names) (hp : p.2 ∈ names) : DownOK (spStep ms acc p) names := by
  unfold spStep
  rcases lastIdxWithName ms p.1 with _ | i
  · exact h
  · exact DownOK_appendDownAt acc names i p.2 h hp

theorem foldl_spStep_names (ms : List Model) (pairs : List (String × String)) :
    ∀ acc : List Model,
      (pairs.foldl (spStep ms) acc).map (fun m => m.name) = acc.map (fun m => m.name) := by
  induction pairs with
  | nil => intro acc; rfl
  | cons p rest ih =>
      intro acc
      rw [List.foldl_cons, ih (spStep ms acc p), spStep_names]

theorem foldl_spStep_downOK (ms : List Model) (names : List String)
    (pairs : List (String × String)) :
    ∀ acc : List Model, DownOK acc names → (∀ p ∈ pairs, p.2 ∈ names) →
      DownOK (pairs.foldl (spStep ms) acc) names := by
  induction pairs with
  | nil => intro acc hacc _; exact hacc
  | cons p rest ih =>
      intro acc hacc hp
      rw [List.foldl_cons]
      exact ih (spStep ms acc p) (spStep_downOK p hacc (hp p (List.mem_cons_self p rest)))
        (fun p2 hp2 => hp p2 (List.mem_cons_of_mem p hp2))

theorem secondPass_eq_foldl (ms : List Model) :
    secondPass ms =
      (ms.flatMap (fun m => m.upstream.map (fun up => (up, m.name)))).foldl (spStep ms) ms := rfl

/-- C10 (amended): in the model graph returned by `parse_manifest`, every name
appearing in any model's downstream list is the name of a model in the
returned list (dangling upstream references contribute no downstream edge);
upstream lists, however, keep the dependency names as declared — stripped of
their namespace qualifiers — and may reference nonexistent models. -/
theorem claim_C10 : ∀ (nodes : List ManifestNode), ∀ m ∈ parse_manifest nodes,
    ∀ d ∈ m.downstream, d ∈ (parse_manifest nodes).map (fun m2 => m2.name) := by
  intro nodes m hm d hd
  unfold parse_manifest at hm ⊢
  set ms := (nodes.filter (fun n => n.resource_type = "model")).map mkModel with hms
  rw [secondPass_eq_foldl] at hm ⊢
  rw [foldl_spStep_names]
  have h0 : DownOK ms (ms.map (fun m2 => m2.name)) := by
    intro m2 hm2 d2 hd2
    rw [hms, List.mem_map] at hm2
    obtain ⟨n, _, heq⟩ := hm2
    rw [← heq] at hd2
    cases hd2
  have hpairs : ∀ p ∈ ms.flatMap (fun m2 => m2.upstream.map (fun up => (up, m2.name))),
      p.2 ∈ ms.map (fun m2 => m2.name) := by
    intro p hp
    rw [List.mem_flatMap] at hp
    obtain ⟨m2, hm2, hp2⟩ := hp
    rw [List.mem_map] at hp2
    obtain ⟨up, _, heq⟩ := hp2
    cases heq
    exact List.mem_map_of_mem (fun m3 => m3.name) hm2
  exact foldl_spStep_downOK ms (ms.map (fun m2 => m2.name)) _ ms h0 hpairs m hm d hd

/-- A manifest node with a dangling dependency reference. -/
def cexC10_nodes : List ManifestNode :=
  [⟨"model", "a", none, some "select 1", none, ["source.x.ghost"]⟩]

/-- C10 counterexample: the returned model keeps `"ghost"` in its upstream
list although no returned model is named `"ghost"`, so the invariant claimed
for upstream edges fails on this input. -/
theorem claim_C10_counterexample :
    (parse_manifest cexC10_nodes).map (fun m => m.upstream) = [["ghost"]]
    ∧ (parse_manifest cexC10_nodes).map (fun m => m.name) = ["a"]
    ∧ "ghost" ∉ ["a"] := by
  refine ⟨by decide, by decide, by decide⟩

/-- Manifest giving model `a` the downstream edge `b`. -/
def witC10_nodes : List ManifestNode :=
  [⟨"model", "a", none, some "select 1", none, []⟩,
   ⟨"model", "b", none, some "select 2", none, ["model.proj.a"]⟩]

/-- C10 witness: the amended theorem applied at a concrete manifest. -/
theorem claim_C10_witness :
    "b" ∈ (parse_manifest witC10_nodes).map (fun m2 => m2.name) :=
  claim_C10 witC10_nodes
    ⟨"a", "view", md5Hex "select 1", [], ["b"]⟩ (by decide) "b" (by decide)

end Pipecost

/-! ### The `defaultdict(list)` grouping fold, in closed form -/

theorem mem_dedupFirst (x : String) (l : List String) : x ∈ dedupFirst l ↔ x ∈ l := by
  induction l with
  | nil => simp [dedupFirst]
  | cons a l ih =>
      simp only [dedupFirst, List.mem_cons, List.mem_filter]
      constructor
      · rintro (rfl | ⟨hx, _⟩)
        · exact Or.inl rfl
        · exact Or.inr (ih.mp hx)
      · rintro (rfl | hx)
        · exact Or.inl rfl
        · by_cases hxa : x = a
          · exact Or.inl hxa
          · exact Or.inr ⟨ih.mpr hx, by simp [hxa]⟩

theorem nodup_dedupFirst (l : List String) : (dedupFirst l).Nodup := by
  induction l with
  | nil => simp [dedupFirst]
  | cons a l ih =>
      rw [dedupFirst, List.nodup_cons]
      refine ⟨?_, List.Nodup.filter _ ih⟩
      intro ha
      rw [List.mem_filter] at ha
      simp at ha

theorem dedupFirst_concat (l : List String) (x : String) :
    dedupFirst (l ++ [x]) = if x ∈ l then dedupFirst l else dedupFirst l ++ [x] := by
  induction l with
  | nil => simp [dedupFirst]
  | cons a l ih =>
      simp only [List.cons_append, dedupFirst, List.append_eq]
      rw [ih]
      by_cases hx : x ∈ l
      · rw [if_pos hx, if_pos (List.mem_cons_of_mem a hx)]
      · by_cases hxa : x = a
        · subst hxa
          rw [if_neg hx, if_pos (List.mem_cons_self x l)]
          simp [List.filter_append]
        · have hxal : x ∉ a :: l := by simp [hxa, hx]
          rw [if_neg hx, if_neg hxal]
          simp [List.filter_append, hxa]

theorem upsertApp_map_notmem {α : Type} (ns : List String) (f : String → List α)
    (k : String) (v : α) (hk : k ∉ ns) :
    upsertApp (ns.map (fun n => (n, f n))) k v = ns.map (fun n => (n, f n)) ++ [(k, [v])] := by
  induction ns with
  | nil => rfl
  | cons a ns ih =>
      have hak : ¬ (a = k) := fun h => hk (h ▸ List.mem_cons_self a ns)
      simp only [List.map_cons, upsertApp, if_neg hak, List.cons_append]
      rw [ih (fun h => hk (List.mem_cons_of_mem a h))]

theorem upsertApp_map_mem {α : Type} (ns : List String) (f : String → List α)
    (k : String) (v : α) (hnd : ns.Nodup) (hk : k ∈ ns) :
    upsertApp (ns.map (fun n => (n, f n))) k v =
      ns.map (fun n => (n, if n = k then f n ++ [v] else f n)) := by
  induction ns with
  | nil => cases hk
  | cons a ns ih =>
      rw [List.nodup_cons] at hnd
      rcases List.mem_cons.mp hk with rfl | hk2
      · have htail : List.map (fun n => (n, if n = k then f n ++ [v] else f n)) ns
            = List.map (fun n => (n, f n)) ns := by
          apply List.map_congr_left
          intro n hn
          have hne : ¬ (n = k) := fun h => hnd.1 (h ▸ hn)
          simp [hne]
        simp [upsertApp, htail]
      · have hak : ¬ (a = k) := fun h => hnd.1 (h ▸ hk2)
        simp only [List.map_cons, upsertApp, if_neg hak]
        rw [ih hnd.2 hk2]

theorem groupPairs_concat {α : Type} (ps : List (String × α)) (p : String × α) :
    groupPairs (ps ++ [p]) = upsertApp (groupPairs ps) p.1 p.2 := by
  unfold groupPairs
  rw [List.foldl_append]
  rfl

/-- Closed form of the grouping fold: keys in first-occurrence order, each
with all its values in input order. -/
theorem groupPairs_eq {α : Type} (ps : List (String × α)) :
    groupPairs ps =
      (dedupFirst (ps.map Prod.fst)).map
        (fun k => (k, (ps.filter (fun p => decide (p.1 = k))).map Prod.snd)) := by
  induction ps using List.reverseRecOn with
  | nil => rfl
  | append_singleton ps p ih =>
      rw [groupPairs_concat, ih]
      simp only [List.map_append, List.map_cons, List.map_nil]
      rw [dedupFirst_concat]
      by_cases hp : p.1 ∈ ps.map Prod.fst
      · rw [if_pos hp]
        rw [upsertApp_map_mem _ _ _ _ (nodup_dedupFirst _) ((mem_dedupFirst _ _).mpr hp)]
        apply List.map_congr_left
        intro n _
        rw [List.filter_append, List.map_append]
        by_cases hn : n = p.1
        · subst hn
          simp
        · have hpn : ¬ (p.1 = n) := fun h => hn h.symm
          simp [hpn, hn]
      · rw [if_neg hp]
        rw [upsertApp_map_notmem _ _ _ _ (by simpa [mem_dedupFirst] using hp)]
        rw [List.map_append]
        congr 1
        · apply List.map_congr_left
          intro n hn
          rw [mem_dedupFirst] at hn
          have hne : ¬ (p.1 = n) := fun h => hp (h ▸ hn)
          rw [List.filter_append, List.map_append]
          simp [hne]
        · have hnil : ps.filter (fun q => decide (q.1 = p.1)) = [] := by
            rw [List.filter_eq_nil_iff]
            intro q hq
            simp only [decide_eq_true_eq]
            intro h
            exact hp (h ▸ List.mem_map_of_mem Prod.fst hq)
          simp [List.filter_append, hnil]

/-! ### Generic `filterMap` lemmas -/

theorem filterMap_guard {α β : Type} (c : α → Bool) (g : α → β) (l : List α) :
    (l.filterMap (fun a => if c a then some (g a) else none)) = (l.filter c).map g := by
  induction l with
  | nil => rfl
  | cons a l ih =>
      by_cases h : c a
      · simp [List.filterMap_cons, List.filter_cons, h, ih]
      · simp [List.filterMap_cons, List.filter_cons, h, ih]

theorem filterMap_congr_fn {α β : Type} {f g : α → Option β} (l : List α)
    (h : ∀ a ∈ l, f a = g a) : l.filterMap f = l.filterMap g := by
  induction l with
  | nil => rfl
  | cons a l ih =>
      rw [List.filterMap_cons, List.filterMap_cons, h a (List.mem_cons_self a l),
        ih (fun a2 ha2 => h a2 (List.mem_cons_of_mem a ha2))]

/-! ### The cost map in closed form -/

namespace Pipecost

/-- The credits attributed to `name` by the cost map: the sum of the credits
of the events that reference it. -/
def specCredits (queries : List QueryRecord) (name : String) : ℚ :=
  ((queries.filter (fun q => decide (q.model_name = name))).map (fun q => q.credits_used)).sum

/-- The total credits of all events. -/
def specTotal (queries : List QueryRecord) : ℚ :=
  (queries.map (fun q => q.credits_used)).sum

/-- A model's cost share of the total credits of all events, as a percentage. -/
def specPct (queries : List QueryRecord) (name : String) : ℚ :=
  specCredits queries name / specTotal queries * 100

theorem lookupD_addTo (m : List (String × ℚ)) (k k2 : String) (v : ℚ) :
    lookupD (addTo m k v) k2 0 = lookupD m k2 0 + (if k = k2 then v else 0) := by
  induction m with
  | nil => by_cases h : k = k2 <;> simp [addTo, lookupD, h]
  | cons kv rest ih =>
      obtain ⟨k3, v3⟩ := kv
      by_cases h3 : k3 = k
      · subst h3
        by_cases h2 : k3 = k2 <;> simp [addTo, lookupD, h2]
      · by_cases h2 : k3 = k2
        · subst h2
          have hk : ¬ (k = k3) := fun h => h3 h.symm
          simp [addTo, lookupD, h3, hk]
        · simp [addTo, lookupD, h3, h2, ih]

theorem sumValues_addTo (m : List (String × ℚ)) (k : String) (v : ℚ) :
    sumValues (addTo m k v) = sumValues m + v := by
  induction m with
  | nil => simp [addTo, sumValues]
  | cons kv rest ih =>
      obtain ⟨k3, v3⟩ := kv
      by_cases h3 : k3 = k
      · simp [addTo, h3, sumValues]
        ring
      · simp [addTo, h3, sumValues] at ih ⊢
        rw [ih]
        ring

theorem costMap_fold_lookup (qs : List QueryRecord) (n : String) :
    ∀ acc, lookupD (qs.foldl (fun m q => addTo m q.model_name q.credits_used) acc) n 0
      = lookupD acc n 0 + specCredits qs n := by
  induction qs with
  | nil => intro acc; simp [specCredits]
  | cons q qs ih =>
      intro acc
      rw [List.foldl_cons, ih, lookupD_addTo]
      unfold specCredits
      by_cases h : q.model_name = n
      · simp [List.filter_cons, h]
        ring
      · simp [List.filter_cons, h]

theorem costMap_fold_sum (qs : List QueryRecord) :
    ∀ acc, sumValues (qs.foldl (fun m q => addTo m q.model_name q.credits_used) acc)
      = sumValues acc + specTotal qs := by
  induction qs with
  | nil => intro acc; simp [specTotal]
  | cons q qs ih =>
      intro acc
      rw [List.foldl_cons, ih, sumValues_addTo]
      unfold specTotal
      simp
      ring

theorem _cost_map_lookup (qs : List QueryRecord) (n : String) :
    lookupD (_cost_map qs).1 n 0 = specCredits qs n := by
  show lookupD (qs.foldl (fun m q => addTo m q.model_name q.credits_used) []) n 0
    = specCredits qs n
  rw [costMap_fold_lookup]
  simp [lookupD]

theorem _cost_map_sum (qs : List QueryRecord) :
    sumValues (_cost_map qs).1 = specTotal qs := by
  show sumValues (qs.foldl (fun m q => addTo m q.model_name q.credits_used) []) = specTotal qs
  rw [costMap_fold_sum]
  simp [sumValues]

theorem _cost_map_total_ne (qs : List QueryRecord) : (_cost_map qs).2 ≠ 0 := by
  have h : (_cost_map qs).2
      = if sumValues (_cost_map qs).1 = 0 then 1 else sumValues (_cost_map qs).1 := rfl
  rw [h]
  split
  · exact one_ne_zero
  · assumption

theorem _cost_map_total_eq (qs : List QueryRecord) (h : specTotal qs ≠ 0) :
    (_cost_map qs).2 = specTotal qs := by
  have h2 : (_cost_map qs).2
      = if sumValues (_cost_map qs).1 = 0 then 1 else sumValues (_cost_map qs).1 := rfl
  rw [h2, _cost_map_sum, if_neg h]

theorem specCredits_nonneg (qs : List QueryRecord) (n : String)
    (h : ∀ q ∈ qs, 0 ≤ q.credits_used) : 0 ≤ specCredits qs n := by
  apply List.sum_nonneg
  intro x hx
  rw [List.mem_map] at hx
  obtain ⟨q, hq, rfl⟩ := hx
  exact h q (List.mem_of_mem_filter hq)

theorem specCredits_le_total (qs : List QueryRecord) (n : String)
    (h : ∀ q ∈ qs, 0 ≤ q.credits_used) : specCredits qs n ≤ specTotal qs := by
  induction qs with
  | nil => simp [specCredits, specTotal]
  | cons q qs ih =>
      have hq : 0 ≤ q.credits_used := h q (List.mem_cons_self q qs)
      have ih2 := ih (fun q2 hq2 => h q2 (List.mem_cons_of_mem q hq2))
      unfold specCredits specTotal at ih2 ⊢
      by_cases hn : q.model_name = n
      · simp only [List.filter_cons, hn, decide_True, List.map_cons, List.sum_cons]
        simpa using ih2
      · simp only [List.filter_cons, hn, decide_False, List.map_cons, List.sum_cons]
        calc ((qs.filter (fun q2 => decide (q2.model_name = n))).map
                (fun q2 => q2.credits_used)).sum
            ≤ (qs.map (fun q2 => q2.credits_used)).sum := ih2
          _ ≤ q.credits_used + (qs.map (fun q2 => q2.credits_used)).sum := by linarith

end Pipecost

/-! ### Claim C4: the over-scheduling detector -/

namespace Pipecost

/-- The start times of the events of one model, in input order. -/
def timesOfQ (queries : List QueryRecord) (n : String) : List ℚ :=
  (queries.filter (fun q => decide (q.model_name = n))).map (fun q => q.start_time)

/-- C4 (amended): `detect_over_scheduling` flags a model exactly when it has at
least 3 events and the average consecutive gap of its sorted timestamps is at
most 4 hours; the estimated savings are 75% of the model's share of total
credits as a percentage, rounded to one decimal place (half to even, as
`round(x, 1)` does); severity is critical exactly when the average gap is at
most 1 hour. The output is, up to the detector's final sort, the list of one
such finding per flagged model in first-occurrence order. -/
theorem claim_C4 : ∀ (models : List Model) (queries : List QueryRecord),
    List.Perm (detect_over_scheduling models queries)
      (((dedupFirst (queries.map (fun q => q.model_name))).filter
          (fun n => decide (3 ≤ (timesOfQ queries n).length)
            && decide (avgGap (timesOfQ queries n) ≤ 4))).map
        (fun n =>
          { category := "over_schedule"
            severity := if avgGap (timesOfQ queries n) ≤ 1 then "critical" else "warning"
            model := n
            detail := overDetail (avgGap (timesOfQ queries n)) (specCredits queries n)
            estimated_savings_pct :=
              roundTo 1 (specCredits queries n * (3/4) / (_cost_map queries).2 * 100)
            recommendation := overRec (avgGap (timesOfQ queries n)) })) := by
  intro models queries
  have hkeys : (queries.map (fun q => (q.model_name, q.start_time))).map Prod.fst
      = queries.map (fun q => q.model_name) := by
    rw [List.map_map]
    rfl
  have hvals : ∀ n : String,
      ((queries.map (fun q => (q.model_name, q.start_time))).filter
        (fun p => decide (p.1 = n))).map Prod.snd = timesOfQ queries n := by
    intro n
    rw [List.filter_map, List.map_map]
    rfl
  have hpt : ∀ n ∈ dedupFirst (queries.map (fun q => q.model_name)),
      (overFin (_cost_map queries) ∘ fun k =>
        (k, ((queries.map (fun q => (q.model_name, q.start_time))).filter
              (fun p => decide (p.1 = k))).map Prod.snd)) n
        = if decide (3 ≤ (timesOfQ queries n).length)
              && decide (avgGap (timesOfQ queries n) ≤ 4) then
            some { category := "over_schedule"
                   severity := if avgGap (timesOfQ queries n) ≤ 1 then "critical" else "warning"
                   model := n
                   detail := overDetail (avgGap (timesOfQ queries n)) (specCredits queries n)
                   estimated_savings_pct :=
                     roundTo 1 (specCredits queries n * (3/4) / (_cost_map queries).2 * 100)
                   recommendation := overRec (avgGap (timesOfQ queries n)) }
          else none := by
    intro n _
    simp only [Function.comp, hvals]
    unfold overFin
    dsimp only
    rw [_cost_map_lookup]
    by_cases h3 : (timesOfQ queries n).length < 3
    · have h3b : ¬ (3 ≤ (timesOfQ queries n).length) := by omega
      simp [h3, h3b]
    · have h3b : 3 ≤ (timesOfQ queries n).length := by omega
      by_cases h4 : avgGap (timesOfQ queries n) ≤ 4
      · simp [h3, h3b, h4]
      · simp [h3, h3b, h4]
  have hmain : detect_over_scheduling models queries
      = sortFindings
          (((dedupFirst (queries.map (fun q => q.model_name))).filter
              (fun n => decide (3 ≤ (timesOfQ queries n).length)
                && decide (avgGap (timesOfQ queries n) ≤ 4))).map
            (fun n =>
              { category := "over_schedule"
                severity := if avgGap (timesOfQ queries n) ≤ 1 then "critical" else "warning"
                model := n
                detail := overDetail (avgGap (timesOfQ queries n)) (specCredits queries n)
                estimated_savings_pct :=
                  roundTo 1 (specCredits queries n * (3/4) / (_cost_map queries).2 * 100)
                recommendation := overRec (avgGap (timesOfQ queries n)) })) := by
    unfold detect_over_scheduling
    dsimp only
    rw [groupPairs_eq, hkeys]
    congr 1
    rw [List.filterMap_map, filterMap_congr_fn _ hpt]
    exact filterMap_guard _ _ _
  rw [hmain]
  exact sortFindings_perm _

end Pipecost

namespace Pipecost

/-- Over-scheduled model `a`: 3 hourly events of 1 credit each, plus a
13-credit event for `b`, so `a`'s raw savings are 3·0.75/16·100 = 14.0625%. -/
def cexC4_queries : List QueryRecord :=
  [⟨"a", 1, 0, "wh"⟩, ⟨"a", 1, 3600, "wh"⟩, ⟨"a", 1, 7200, "wh"⟩, ⟨"b", 13, 0, "wh"⟩]

/-- C4 counterexample: the finding's stored savings percentage is 14.1 (the
source's `round(sav, 1)`), not the exact 75% share 14.0625 the claim states. -/
theorem claim_C4_counterexample :
    (detect_over_scheduling [] cexC4_queries).map (fun f => f.estimated_savings_pct) = [141/10]
    ∧ specCredits cexC4_queries "a" * (3/4) / (_cost_map cexC4_queries).2 * 100 = 225/16
    ∧ (141/10 : ℚ) ≠ 225/16 := by
  refine ⟨?_, ?_, ?_⟩
  · with_unfolding_all decide
  · with_unfolding_all decide
  · with_unfolding_all decide

end Pipecost

/-! ### Claim C5: the redundant detector -/

namespace Pipecost

/-- All model names carrying the content fingerprint `h`, in input order. -/
def namesWithHash (models : List Model) (h : String) : List String :=
  (models.filter (fun m => decide (m.sql_hash = h))).map (fun m => m.name)

/-- The summed attributed credits of a fingerprint group. -/
def groupCost (models : List Model) (queries : List QueryRecord) (h : String) : ℚ :=
  ((namesWithHash models h).map (fun n => specCredits queries n)).sum

/-- The raw (unrounded) savings of a fingerprint group:
group cost × (size − 1)/size as a percentage of the overall total. -/
def groupSav (models : List Model) (queries : List QueryRecord) (h : String) : ℚ :=
  groupCost models queries h * (((namesWithHash models h).length : ℚ) - 1)
    / ((namesWithHash models h).length : ℚ) / (_cost_map queries).2 * 100

/-- C5 (amended): `detect_redundant` produces, up to its final sort, exactly
one finding per distinct non-empty fingerprint carried by two or more models,
covering all the group's members, with savings equal to the group's credits
times (size−1)/size as a percentage of the overall total, rounded to one
decimal place; models with an empty fingerprint never group. (However,
`parse_manifest` never produces an empty fingerprint: a model with no defining
text gets the hash of the empty string, so two such models do share a
fingerprint and do collide — see the counterexample.) -/
theorem claim_C5 : ∀ (models : List Model) (queries : List QueryRecord),
    List.Perm (detect_redundant models queries)
      (((dedupFirst ((models.filter (fun m => decide (m.sql_hash ≠ ""))).map
            (fun m => m.sql_hash))).filter
          (fun h => decide (2 ≤ (namesWithHash models h).length))).map
        (fun h =>
          { category := "redundant"
            severity := if 5 < groupSav models queries h then "critical" else "warning"
            model := joinComma (namesWithHash models h)
            detail := redundantDetail (namesWithHash models h).length (groupCost models queries h)
            estimated_savings_pct := roundTo 1 (groupSav models queries h)
            recommendation := "Consolidate into '" ++ (namesWithHash models h).headD "" ++ "'" })) := by
  intro models queries
  have hkeys : ((models.filter (fun m => decide (m.sql_hash ≠ ""))).map
        (fun m => (m.sql_hash, m.name))).map Prod.fst
      = (models.filter (fun m => decide (m.sql_hash ≠ ""))).map (fun m => m.sql_hash) := by
    rw [List.map_map]
    rfl
  have hne : ∀ h ∈ dedupFirst ((models.filter (fun m => decide (m.sql_hash ≠ ""))).map
      (fun m => m.sql_hash)), h ≠ "" := by
    intro h hh
    rw [mem_dedupFirst, List.mem_map] at hh
    obtain ⟨m, hm, rfl⟩ := hh
    have := List.of_mem_filter hm
    simpa using this
  have hvals : ∀ h : String, h ≠ "" →
      (((models.filter (fun m => decide (m.sql_hash ≠ ""))).map
          (fun m => (m.sql_hash, m.name))).filter (fun p => decide (p.1 = h))).map Prod.snd
        = namesWithHash models h := by
    intro h hh
    rw [List.filter_map, List.map_map]
    show ((models.filter (fun m => decide (m.sql_hash ≠ ""))).filter
        (fun m => decide (m.sql_hash = h))).map (fun m => m.name) = namesWithHash models h
    unfold namesWithHash
    congr 1
    rw [List.filter_filter]
    apply List.filter_congr
    intro m _
    by_cases hm : m.sql_hash = h
    · simp [hm, hh]
    · simp [hm]
  have hpt : ∀ h ∈ dedupFirst ((models.filter (fun m => decide (m.sql_hash ≠ ""))).map
      (fun m => m.sql_hash)),
      (redFin (_cost_map queries) ∘ fun k =>
        (k, (((models.filter (fun m => decide (m.sql_hash ≠ ""))).map
              (fun m => (m.sql_hash, m.name))).filter (fun p => decide (p.1 = k))).map Prod.snd)) h
        = if decide (2 ≤ (namesWithHash models h).length) then
            some { category := "redundant"
                   severity := if 5 < groupSav models queries h then "critical" else "warning"
                   model := joinComma (namesWithHash models h)
                   detail := redundantDetail (namesWithHash models h).length
                     (groupCost models queries h)
                   estimated_savings_pct := roundTo 1 (groupSav models queries h)
                   recommendation :=
                     "Consolidate into '" ++ (namesWithHash models h).headD "" ++ "'" }
          else none := by
    intro h hh
    simp only [Function.comp]
    rw [hvals h (hne h hh)]
    unfold redFin
    dsimp only
    have hcost : ((namesWithHash models h).map (fun n => lookupD (_cost_map queries).1 n 0)).sum
        = groupCost models queries h := by
      unfold groupCost
      congr 1
      apply List.map_congr_left
      intro n _
      exact _cost_map_lookup queries n
    by_cases h2 : (namesWithHash models h).length < 2
    · have h2b : ¬ (2 ≤ (namesWithHash models h).length) := by omega
      simp [h2, h2b]
    · have h2b : 2 ≤ (namesWithHash models h).length := by omega
      have hg : decide (2 ≤ (namesWithHash models h).length) = true := by simpa using h2b
      rw [if_neg h2, hg, if_pos rfl, hcost]
      rfl
  have hmain : detect_redundant models queries
      = sortFindings
          (((dedupFirst ((models.filter (fun m => decide (m.sql_hash ≠ ""))).map
                (fun m => m.sql_hash))).filter
              (fun h => decide (2 ≤ (namesWithHash models h).length))).map
            (fun h =>
              { category := "redundant"
                severity := if 5 < groupSav models queries h then "critical" else "warning"
                model := joinComma (namesWithHash models h)
                detail := redundantDetail (namesWithHash models h).length
                  (groupCost models queries h)
                estimated_savings_pct := roundTo 1 (groupSav models queries h)
                recommendation :=
                  "Consolidate into '" ++ (namesWithHash models h).headD "" ++ "'" })) := by
    unfold detect_redundant
    dsimp only
    rw [groupPairs_eq, hkeys]
    congr 1
    rw [List.filterMap_map, filterMap_congr_fn _ hpt]
    exact filterMap_guard _ _ _
  rw [hmain]
  exact sortFindings_perm _

end Pipecost

namespace Pipecost

/-- Two manifest nodes with no defining text at all. -/
def cexC5_nodes : List ManifestNode :=
  [⟨"model", "a", none, none, none, []⟩, ⟨"model", "b", none, none, none, []⟩]

/-- Two models sharing fingerprint `"h"`, with 1.5 credits of a 4-credit
total, so the group's raw savings are 1.5·(1/2)/4·100 = 18.75%. -/
def cexC5_models : List Model :=
  [⟨"r1", "table", "h", [], []⟩, ⟨"r2", "table", "h", [], []⟩]

/-- Queries for the rounding part of the C5 counterexample. -/
def cexC5_queries : List QueryRecord :=
  [⟨"r1", 3/2, 0, "wh"⟩, ⟨"x", 5/2, 0, "wh"⟩]

/-- C5 counterexample, two parts. (1) `parse_manifest` gives two models with
no defining text the same non-empty fingerprint — the MD5 of the empty string
— and `detect_redundant` groups them into one finding, so a unit with no
defining text does collide with another such unit. (2) The stored savings
percentage is `round(18.75, 1) = 18.8`, not the exact group quotient 18.75
stated by the claim. -/
theorem claim_C5_counterexample :
    ((parse_manifest cexC5_nodes).map (fun m => m.sql_hash) = [md5Hex "", md5Hex ""]
      ∧ md5Hex "" ≠ ""
      ∧ (detect_redundant (parse_manifest cexC5_nodes) []).map (fun f => f.model) = ["a, b"])
    ∧ ((detect_redundant cexC5_models cexC5_queries).map (fun f => f.estimated_savings_pct)
        = [188/10]
      ∧ groupSav cexC5_models cexC5_queries "h" = 75/4
      ∧ (188/10 : ℚ) ≠ 75/4) := by
  refine ⟨⟨by decide, by decide, ?_⟩, ⟨?_, ?_, ?_⟩⟩
  · with_unfolding_all decide
  · with_unfolding_all decide
  · with_unfolding_all decide
  · with_unfolding_all decide

end Pipecost

/-! ### Claim C3: the zombie detector -/

namespace Pipecost

/-- C3 (confirmed): with non-negative event credits, `detect_zombies` emits a
finding for a model exactly when it has zero downstream dependents, nonzero
attributed credits, and a cost percentage (credits / total credits of all
events × 100) of at least 1.0; severity is critical exactly when that
percentage is at least 5. The output is, up to the detector's final sort,
one such finding per qualifying model in input order. -/
theorem claim_C3 : ∀ (models : List Model) (queries : List QueryRecord),
    (∀ q ∈ queries, 0 ≤ q.credits_used) →
    List.Perm (detect_zombies models queries)
      ((models.filter (fun m => decide (m.downstream = [])
          && !decide (specCredits queries m.name = 0)
          && decide (1 ≤ specPct queries m.name))).map
        (fun m =>
          { category := "zombie"
            severity := if 5 ≤ specPct queries m.name then "critical" else "warning"
            model := m.name
            detail := zombieDetail (specPct queries m.name) (specCredits queries m.name)
            estimated_savings_pct := roundTo 1 (specPct queries m.name)
            recommendation := zombieRec m.name (specPct queries m.name) })) := by
  intro models queries hq
  have hpt : ∀ m ∈ models, zombieFin (_cost_map queries) m
      = if decide (m.downstream = [])
          && !decide (specCredits queries m.name = 0)
          && decide (1 ≤ specPct queries m.name) then
          some { category := "zombie"
                 severity := if 5 ≤ specPct queries m.name then "critical" else "warning"
                 model := m.name
                 detail := zombieDetail (specPct queries m.name) (specCredits queries m.name)
                 estimated_savings_pct := roundTo 1 (specPct queries m.name)
                 recommendation := zombieRec m.name (specPct queries m.name) }
        else none := by
    intro m _
    unfold zombieFin
    dsimp only
    rw [_cost_map_lookup]
    simp only [specPct]
    by_cases hd : m.downstream = []
    · by_cases hc : specCredits queries m.name = 0
      · rw [if_pos (Or.inr (le_of_eq hc))]
        simp [hc]
      · have hpos : 0 < specCredits queries m.name :=
          lt_of_le_of_ne (specCredits_nonneg queries m.name hq) (Ne.symm hc)
        have htot : 0 < specTotal queries :=
          lt_of_lt_of_le hpos (specCredits_le_total queries m.name hq)
        have htoteq : (_cost_map queries).2 = specTotal queries :=
          _cost_map_total_eq queries (ne_of_gt htot)
        rw [if_neg (by
          rintro (h | h)
          · exact h hd
          · exact absurd hpos (not_lt.mpr h))]
        rw [htoteq]
        by_cases h1 : 1 ≤ specCredits queries m.name / specTotal queries * 100
        · have hcond : (decide (m.downstream = [])
              && !decide (specCredits queries m.name = 0)
              && decide (1 ≤ specCredits queries m.name / specTotal queries * 100)) = true := by
            simp [hd, hc, h1]
          rw [if_pos h1, hcond, if_pos rfl]
        · have hcond : (decide (m.downstream = [])
              && !decide (specCredits queries m.name = 0)
              && decide (1 ≤ specCredits queries m.name / specTotal queries * 100)) = false := by
            simp [h1]
          rw [if_neg h1, hcond]
          simp
    · rw [if_pos (Or.inl hd)]
      simp [hd]
  have hmain : detect_zombies models queries
      = sortFindings
          ((models.filter (fun m => decide (m.downstream = [])
              && !decide (specCredits queries m.name = 0)
              && decide (1 ≤ specPct queries m.name))).map
            (fun m =>
              { category := "zombie"
                severity := if 5 ≤ specPct queries m.name then "critical" else "warning"
                model := m.name
                detail := zombieDetail (specPct queries m.name) (specCredits queries m.name)
                estimated_savings_pct := roundTo 1 (specPct queries m.name)
                recommendation := zombieRec m.name (specPct queries m.name) })) := by
    unfold detect_zombies
    dsimp only
    rw [filterMap_congr_fn _ hpt]
    exact congrArg sortFindings (filterMap_guard _ _ _)
  rw [hmain]
  exact sortFindings_perm _

/-- Models and queries for the C3 witness: `z` has no downstream and a 25%
cost share. -/
def witC3_models : List Model := [⟨"z", "table", "hz", [], []⟩]

/-- Queries for the C3 witness. -/
def witC3_queries : List QueryRecord := [⟨"z", 10, 0, "wh"⟩, ⟨"y", 30, 0, "wh"⟩]

/-- C3 witness: the theorem applied at a concrete input with the
non-negativity hypothesis discharged by computation. -/
theorem claim_C3_witness :
    List.Perm (detect_zombies witC3_models witC3_queries)
      ((witC3_models.filter (fun m => decide (m.downstream = [])
          && !decide (specCredits witC3_queries m.name = 0)
          && decide (1 ≤ specPct witC3_queries m.name))).map
        (fun m =>
          { category := "zombie"
            severity := if 5 ≤ specPct witC3_queries m.name then "critical" else "warning"
            model := m.name
            detail := zombieDetail (specPct witC3_queries m.name) (specCredits witC3_queries m.name)
            estimated_savings_pct := roundTo 1 (specPct witC3_queries m.name)
            recommendation := zombieRec m.name (specPct witC3_queries m.name) })) :=
  claim_C3 witC3_models witC3_queries (by decide)

end Pipecost

/-! ### Claim C2: word-boundary matching -/

namespace Snowflake

theorem mem_insertSet (acc : List String) (y x : String) :
    x ∈ insertSet acc y ↔ x ∈ acc ∨ x = y := by
  unfold insertSet
  split
  · constructor
    · exact Or.inl
    · rintro (h | rfl)
      · exact h
      · assumption
  · simp [List.mem_append]

theorem nodup_insertSet (acc : List String) (y : String) (h : acc.Nodup) :
    (insertSet acc y).Nodup := by
  unfold insertSet
  split
  · exact h
  · rw [List.nodup_append]
    exact ⟨h, List.nodup_singleton y, by simpa using fun hy => by simp_all⟩

theorem mem_matchFold (pats : List (String × String)) (ql : String) :
    ∀ (acc : List String) (x : String),
      x ∈ pats.foldl (fun acc pm => if wbMatch pm.1 ql then insertSet acc pm.2 else acc) acc
        ↔ x ∈ acc ∨ ∃ pm ∈ pats, pm.2 = x ∧ wbMatch pm.1 ql = true := by
  induction pats with
  | nil => intro acc x; simp
  | cons p rest ih =>
      intro acc x
      rw [List.foldl_cons, ih]
      by_cases hw : wbMatch p.1 ql
      · rw [if_pos hw, mem_insertSet]
        constructor
        · rintro ((h | rfl) | ⟨pm, hpm, h2, h3⟩)
          · exact Or.inl h
          · exact Or.inr ⟨p, List.mem_cons_self p rest, rfl, hw⟩
          · exact Or.inr ⟨pm, List.mem_cons_of_mem p hpm, h2, h3⟩
        · rintro (h | ⟨pm, hpm, h2, h3⟩)
          · exact Or.inl (Or.inl h)
          · rcases List.mem_cons.mp hpm with rfl | hpm2
            · exact Or.inl (Or.inr h2.symm)
            · exact Or.inr ⟨pm, hpm2, h2, h3⟩
      · rw [if_neg hw]
        constructor
        · rintro (h | ⟨pm, hpm, h2, h3⟩)
          · exact Or.inl h
          · exact Or.inr ⟨pm, List.mem_cons_of_mem p hpm, h2, h3⟩
        · rintro (h | ⟨pm, hpm, h2, h3⟩)
          · exact Or.inl h
          · rcases List.mem_cons.mp hpm with rfl | hpm2
            · exact absurd h3 (by simpa using hw)
            · exact Or.inr ⟨pm, hpm2, h2, h3⟩

theorem nodup_matchFold (pats : List (String × String)) (ql : String) :
    ∀ acc : List String, acc.Nodup →
      (pats.foldl (fun acc pm => if wbMatch pm.1 ql then insertSet acc pm.2 else acc) acc).Nodup := by
  induction pats with
  | nil => intro acc h; exact h
  | cons p rest ih =>
      intro acc h
      rw [List.foldl_cons]
      apply ih
      split
      · exact nodup_insertSet acc p.2 h
      · exact h

theorem sortStrings_perm (l : List String) : List.Perm (sortStrings l) l :=
  List.perm_insertionSort _ l

theorem mem_match_query_to_models (query_text : String) (model_map : List (String × String))
    (name : String) :
    name ∈ _match_query_to_models query_text model_map
      ↔ ∃ p, (p, name) ∈ model_map ∧ wbMatch p (strLower query_text) = true := by
  unfold _match_query_to_models
  dsimp only
  rw [(sortStrings_perm _).mem_iff, mem_matchFold]
  simp only [List.not_mem_nil, false_or]
  constructor
  · rintro ⟨pm, hpm, rfl, h3⟩
    refine ⟨pm.1, ?_, h3⟩
    have : pm ∈ model_map := (List.perm_insertionSort _ model_map).subset hpm
    simpa using this
  · rintro ⟨p, hp, h3⟩
    refine ⟨(p, name), ?_, rfl, h3⟩
    exact ((List.perm_insertionSort
      (fun a b : String × String => b.1.length ≤ a.1.length) model_map).mem_iff).mpr hp

theorem nodup_match_query_to_models (query_text : String)
    (model_map : List (String × String)) :
    (_match_query_to_models query_text model_map).Nodup := by
  unfold _match_query_to_models
  dsimp only
  exact ((sortStrings_perm _).nodup_iff).mpr (nodup_matchFold _ _ [] List.nodup_nil)

/-- C2 (confirmed): `_match_query_to_models` attributes a query to a model
exactly when one of the model's lexical patterns occurs in the lowercased
query text delimited by `\b` word boundaries (so never as a substring of a
longer identifier), and it keeps every distinct canonical name with some
matching pattern; in particular the text `SELECT * FROM
analytics.stg_orders_v2` does not attribute to a unit named `stg_orders`. -/
theorem claim_C2 :
    (∀ (query_text : String) (model_map : List (String × String)) (name : String),
      name ∈ _match_query_to_models query_text model_map
        ↔ ∃ p, (p, name) ∈ model_map ∧ wbMatch p (strLower query_text) = true)
    ∧ "stg_orders" ∉ _match_query_to_models "SELECT * FROM analytics.stg_orders_v2"
        [("stg_orders", "stg_orders")] := by
  constructor
  · exact mem_match_query_to_models
  · decide

end Snowflake

/-! ### Claim C1: attribution accounting -/

namespace Snowflake

/-- Event count of `name` in an attribution dict (0 when absent). -/
def qcountOf (att : List (String × CostAttribution)) (name : String) : Nat :=
  ((lookupOpt att name).getD (freshCA name)).query_count

/-- Accumulated credits of `name` in an attribution dict (0 when absent). -/
def creditsOf (att : List (String × CostAttribution)) (name : String) : ℚ :=
  ((lookupOpt att name).getD (freshCA name)).total_credits

/-- The sum of `total_credits` over all attributions. -/
def sumTotalCredits (att : List (String × CostAttribution)) : ℚ :=
  (att.map (fun kv => kv.2.total_credits)).sum

/-- The sum of `credits_used` over normalized queries. -/
def sumCreditsN (qs : List NormRecord) : ℚ := (qs.map (fun q => q.credits_used)).sum

theorem lookupOpt_updOne (u : CostAttribution → CostAttribution) (n : String)
    (att : List (String × CostAttribution)) (k : String) :
    lookupOpt (updOne u n att) k
      = if k = n then some (u ((lookupOpt att n).getD (freshCA n))) else lookupOpt att k := by
  induction att with
  | nil =>
      by_cases h : k = n
      · subst h; simp [updOne, lookupOpt]
      · have : ¬ (n = k) := fun h2 => h h2.symm
        simp [updOne, lookupOpt, h, this]
  | cons kv rest ih =>
      obtain ⟨k2, a⟩ := kv
      by_cases h2 : k2 = n
      · subst h2
        by_cases hk : k2 = k
        · subst hk
          simp [updOne, lookupOpt]
        · have : ¬ (k = k2) := fun h => hk h.symm
          simp [updOne, lookupOpt, hk, this]
      · by_cases hk : k2 = k
        · subst hk
          simp [updOne, lookupOpt, h2]
        · simp [updOne, lookupOpt, h2, hk, ih]

theorem applyQ_credits (q : NormRecord) (share : ℚ) (a : CostAttribution) :
    (applyQ q share a).total_credits = a.total_credits + q.credits_used * share := rfl

theorem applyQ_count (q : NormRecord) (share : ℚ) (a : CostAttribution) :
    (applyQ q share a).query_count = a.query_count + 1 := rfl

theorem creditsOf_updOne_applyQ (q : NormRecord) (share : ℚ) (n : String)
    (att : List (String × CostAttribution)) (k : String) :
    creditsOf (updOne (applyQ q share) n att) k
      = creditsOf att k + (if k = n then q.credits_used * share else 0) := by
  unfold creditsOf
  rw [lookupOpt_updOne]
  by_cases h : k = n
  · subst h
    simp [applyQ_credits]
  · simp [h]

theorem qcountOf_updOne_applyQ (q : NormRecord) (share : ℚ) (n : String)
    (att : List (String × CostAttribution)) (k : String) :
    qcountOf (updOne (applyQ q share) n att) k
      = qcountOf att k + (if k = n then 1 else 0) := by
  unfold qcountOf
  rw [lookupOpt_updOne]
  by_cases h : k = n
  · subst h
    simp [applyQ_count]
  · simp [h]

theorem sumTotalCredits_updOne_applyQ (q : NormRecord) (share : ℚ) (n : String)
    (att : List (String × CostAttribution)) :
    sumTotalCredits (updOne (applyQ q share) n att)
      = sumTotalCredits att + q.credits_used * share := by
  induction att with
  | nil => simp [updOne, sumTotalCredits, applyQ_credits, freshCA]
  | cons kv rest ih =>
      obtain ⟨k2, a⟩ := kv
      by_cases h2 : k2 = n
      · subst h2
        simp [updOne, sumTotalCredits, applyQ_credits]
        ring
      · simp only [updOne, if_neg h2, sumTotalCredits, List.map_cons, List.sum_cons] at ih ⊢
        rw [ih]
        ring

theorem fold_updOne_counts (q : NormRecord) (share : ℚ) (M : List String) (hnd : M.Nodup) :
    ∀ (att : List (String × CostAttribution)) (k : String),
      (qcountOf (M.foldl (fun att n => updOne (applyQ q share) n att) att) k
        = qcountOf att k + (if k ∈ M then 1 else 0))
      ∧ (creditsOf (M.foldl (fun att n => updOne (applyQ q share) n att) att) k
        = creditsOf att k + (if k ∈ M then q.credits_used * share else 0)) := by
  induction M with
  | nil =>
      intro att k
      simp
  | cons n M ih =>
      rw [List.nodup_cons] at hnd
      intro att k
      rw [List.foldl_cons]
      obtain ⟨ihc, ihq⟩ := ih hnd.2 (updOne (applyQ q share) n att) k
      rw [ihc, ihq, qcountOf_updOne_applyQ, creditsOf_updOne_applyQ]
      by_cases hk : k = n
      · subst hk
        have hkM : k ∉ M := hnd.1
        simp [hkM]
      · by_cases hkM : k ∈ M
        · simp [hk, hkM]
        · have : k ∉ n :: M := by simp [hk, hkM]
          simp [hk, hkM, this]

theorem fold_updOne_sum (q : NormRecord) (share : ℚ) (M : List String) :
    ∀ att : List (String × CostAttribution),
      sumTotalCredits (M.foldl (fun att n => updOne (applyQ q share) n att) att)
        = sumTotalCredits att + (M.length : ℚ) * (q.credits_used * share) := by
  induction M with
  | nil => intro att; simp
  | cons n M ih =>
      intro att
      rw [List.foldl_cons, ih, sumTotalCredits_updOne_applyQ]
      simp only [List.length_cons]
      push_cast
      ring

theorem lookupOpt_cons {α : Type} (k2 : String) (v2 : α) (rest : List (String × α))
    (k : String) :
    lookupOpt ((k2, v2) :: rest) k = if k2 = k then some v2 else lookupOpt rest k := rfl

theorem updAvg_credits (a : CostAttribution) (v : ℚ) :
    (updAvg a v).total_credits = a.total_credits := rfl

theorem updAvg_count (a : CostAttribution) (v : ℚ) :
    (updAvg a v).query_count = a.query_count := rfl

theorem lookupOpt_setAvg (att : List (String × CostAttribution)) (n : String) (v : ℚ)
    (k : String) :
    lookupOpt (setAvg att n v) k
      = (lookupOpt att k).map (fun a => if k = n then updAvg a v else a) := by
  induction att with
  | nil => simp [setAvg, lookupOpt]
  | cons kv rest ih =>
      obtain ⟨k2, a⟩ := kv
      have hstep : setAvg ((k2, a) :: rest) n v
          = (if k2 = n then (k2, updAvg a v) else (k2, a)) :: setAvg rest n v := by
        unfold setAvg
        rw [List.map_cons]
      rw [hstep]
      by_cases hn : k2 = n
      · rw [if_pos hn, lookupOpt_cons, lookupOpt_cons]
        by_cases hk : k2 = k
        · rw [if_pos hk, if_pos hk]
          have : k = n := hk ▸ hn
          simp [this]
        · rw [if_neg hk, if_neg hk, ih]
      · rw [if_neg hn, lookupOpt_cons, lookupOpt_cons]
        by_cases hk : k2 = k
        · rw [if_pos hk, if_pos hk]
          have : ¬ (k = n) := fun h => hn (hk.symm ▸ h)
          simp [this]
        · rw [if_neg hk, if_neg hk, ih]

theorem creditsOf_setAvg (att : List (String × CostAttribution)) (n : String) (v : ℚ)
    (k : String) : creditsOf (setAvg att n v) k = creditsOf att k := by
  unfold creditsOf
  rw [lookupOpt_setAvg]
  cases lookupOpt att k with
  | none => rfl
  | some a =>
      by_cases hk : k = n
      · simp [hk, updAvg_credits]
      · simp [hk]

theorem qcountOf_setAvg (att : List (String × CostAttribution)) (n : String) (v : ℚ)
    (k : String) : qcountOf (setAvg att n v) k = qcountOf att k := by
  unfold qcountOf
  rw [lookupOpt_setAvg]
  cases lookupOpt att k with
  | none => rfl
  | some a =>
      by_cases hk : k = n
      · simp [hk, updAvg_count]
      · simp [hk]

theorem sumTotalCredits_setAvg (att : List (String × CostAttribution)) (n : String) (v : ℚ) :
    sumTotalCredits (setAvg att n v) = sumTotalCredits att := by
  unfold sumTotalCredits setAvg
  rw [List.map_map]
  congr 1
  apply List.map_congr_left
  intro kv _
  by_cases hk : kv.1 = n
  · simp [hk, updAvg_credits]
  · simp [hk]

theorem creditsOf_avgPass (et : List (String × List ℤ)) :
    ∀ (att : List (String × CostAttribution)) (k : String),
      creditsOf (avgPass att et) k = creditsOf att k := by
  induction et with
  | nil => intro att k; rfl
  | cons kv rest ih =>
      intro att k
      show creditsOf (List.foldl _ _ (kv :: rest)) k = _
      rw [List.foldl_cons]
      rw [show List.foldl _ _ rest = avgPass _ rest from rfl, ih]
      split
      · rw [creditsOf_setAvg]
      · rfl

theorem qcountOf_avgPass (et : List (String × List ℤ)) :
    ∀ (att : List (String × CostAttribution)) (k : String),
      qcountOf (avgPass att et) k = qcountOf att k := by
  induction et with
  | nil => intro att k; rfl
  | cons kv rest ih =>
      intro att k
      show qcountOf (List.foldl _ _ (kv :: rest)) k = _
      rw [List.foldl_cons]
      rw [show List.foldl _ _ rest = avgPass _ rest from rfl, ih]
      split
      · rw [qcountOf_setAvg]
      · rfl

theorem sumTotalCredits_avgPass (et : List (String × List ℤ)) :
    ∀ att : List (String × CostAttribution),
      sumTotalCredits (avgPass att et) = sumTotalCredits att := by
  induction et with
  | nil => intro att; rfl
  | cons kv rest ih =>
      intro att
      show sumTotalCredits (List.foldl _ _ (kv :: rest)) = _
      rw [List.foldl_cons]
      rw [show List.foldl _ _ rest = avgPass _ rest from rfl, ih]
      split
      · rw [sumTotalCredits_setAvg]
      · rfl

theorem effMatches_ne_nil (mm : List (String × String)) (q : NormRecord) :
    effMatches mm q ≠ [] := by
  unfold effMatches
  dsimp only
  split
  · simp
  · assumption

theorem nodup_effMatches (mm : List (String × String)) (q : NormRecord) :
    (effMatches mm q).Nodup := by
  unfold effMatches
  dsimp only
  split
  · simp
  · exact nodup_match_query_to_models _ _

theorem effMatches_length_ne_zero (mm : List (String × String)) (q : NormRecord) :
    ((effMatches mm q).length : ℚ) ≠ 0 := by
  rw [Nat.cast_ne_zero]
  intro h
  exact effMatches_ne_nil mm q (List.length_eq_zero.mp h)

theorem stepQuery_counts (mm : List (String × String))
    (st : List (String × CostAttribution) × List (String × List ℤ)) (q : NormRecord)
    (k : String) :
    (qcountOf (stepQuery mm st q).1 k
      = qcountOf st.1 k + (if k ∈ effMatches mm q then 1 else 0))
    ∧ (creditsOf (stepQuery mm st q).1 k
      = creditsOf st.1 k
        + (if k ∈ effMatches mm q then
            q.credits_used / ((effMatches mm q).length : ℚ) else 0)) := by
  unfold stepQuery
  dsimp only
  obtain ⟨hq, hc⟩ := fold_updOne_counts q (1 / ((effMatches mm q).length : ℚ))
    (effMatches mm q) (nodup_effMatches mm q) st.1 k
  refine ⟨hq, ?_⟩
  rw [hc]
  congr 1
  by_cases hk : k ∈ effMatches mm q
  · simp only [if_pos hk]
    rw [mul_one_div]
  · simp [hk]

theorem stepQuery_sum (mm : List (String × String))
    (st : List (String × CostAttribution) × List (String × List ℤ)) (q : NormRecord) :
    sumTotalCredits (stepQuery mm st q).1 = sumTotalCredits st.1 + q.credits_used := by
  have h := fold_updOne_sum q (1 / ((effMatches mm q).length : ℚ)) (effMatches mm q) st.1
  show sumTotalCredits ((effMatches mm q).foldl
    (fun att n => updOne (applyQ q (1 / ((effMatches mm q).length : ℚ))) n att) st.1)
    = sumTotalCredits st.1 + q.credits_used
  rw [h]
  have hne := effMatches_length_ne_zero mm q
  field_simp

theorem attribute_foldl_sum (mm : List (String × String)) (qs : List NormRecord) :
    ∀ st : List (String × CostAttribution) × List (String × List ℤ),
      sumTotalCredits ((qs.foldl (stepQuery mm) st).1) = sumTotalCredits st.1 + sumCreditsN qs := by
  induction qs with
  | nil => intro st; simp [sumCreditsN]
  | cons q qs ih =>
      intro st
      rw [List.foldl_cons, ih, stepQuery_sum]
      unfold sumCreditsN
      simp
      ring

/-- C1 (confirmed): `attribute_cost_to_model` conserves credits — the sum of
`total_credits` over all returned attributions equals the sum of the input
queries' `credits_used` (exactly, in the rational model of floats) — and
processing one more query increments each matched model's `query_count` by
exactly 1 and its credits by `credits/N` where `N` is the number of matched
models, leaving all other attributions unchanged; a query matching no model
is attributed wholly to the `__unattributed__` bucket. -/
theorem claim_C1 : ∀ (manifest : List SFNode) (qs : List NormRecord) (q : NormRecord),
    sumTotalCredits (attribute_cost_to_model qs manifest) = sumCreditsN qs
    ∧ (_match_query_to_models q.query_text (_extract_model_names_from_manifest manifest) = []
        → effMatches (_extract_model_names_from_manifest manifest) q = ["__unattributed__"])
    ∧ (∀ name ∈ effMatches (_extract_model_names_from_manifest manifest) q,
        qcountOf (attribute_cost_to_model (qs ++ [q]) manifest) name
          = qcountOf (attribute_cost_to_model qs manifest) name + 1
        ∧ creditsOf (attribute_cost_to_model (qs ++ [q]) manifest) name
          = creditsOf (attribute_cost_to_model qs manifest) name
            + q.credits_used
              / ((effMatches (_extract_model_names_from_manifest manifest) q).length : ℚ))
    ∧ (∀ name, name ∉ effMatches (_extract_model_names_from_manifest manifest) q →
        qcountOf (attribute_cost_to_model (qs ++ [q]) manifest) name
          = qcountOf (attribute_cost_to_model qs manifest) name
        ∧ creditsOf (attribute_cost_to_model (qs ++ [q]) manifest) name
          = creditsOf (attribute_cost_to_model qs manifest) name) := by
  intro manifest qs q
  set mm := _extract_model_names_from_manifest manifest with hmm
  have hA : ∀ qs2 : List NormRecord, attribute_cost_to_model qs2 manifest
      = avgPass ((qs2.foldl (stepQuery mm) ([], [])).1)
          ((qs2.foldl (stepQuery mm) ([], [])).2) := fun _ => rfl
  have hstep : (qs ++ [q]).foldl (stepQuery mm) ([], [])
      = stepQuery mm (qs.foldl (stepQuery mm) ([], [])) q := by
    rw [List.foldl_append]
    rfl
  have hsum : sumTotalCredits (attribute_cost_to_model qs manifest) = sumCreditsN qs := by
    rw [hA, sumTotalCredits_avgPass, attribute_foldl_sum]
    simp [sumTotalCredits]
  have key : ∀ k : String,
      (qcountOf (attribute_cost_to_model (qs ++ [q]) manifest) k
        = qcountOf (attribute_cost_to_model qs manifest) k
          + (if k ∈ effMatches mm q then 1 else 0))
      ∧ (creditsOf (attribute_cost_to_model (qs ++ [q]) manifest) k
        = creditsOf (attribute_cost_to_model qs manifest) k
          + (if k ∈ effMatches mm q then
              q.credits_used / ((effMatches mm q).length : ℚ) else 0)) := by
    intro k
    constructor
    · rw [hA (qs ++ [q]), hA qs, qcountOf_avgPass, qcountOf_avgPass, hstep]
      exact (stepQuery_counts mm _ q k).1
    · rw [hA (qs ++ [q]), hA qs, creditsOf_avgPass, creditsOf_avgPass, hstep]
      exact (stepQuery_counts mm _ q k).2
  refine ⟨hsum, ?_, ?_, ?_⟩
  · intro h
    unfold effMatches
    dsimp only
    rw [if_pos h]
  · intro name hname
    obtain ⟨h1, h2⟩ := key name
    rw [if_pos hname] at h1 h2
    exact ⟨h1, h2⟩
  · intro name hname
    obtain ⟨h1, h2⟩ := key name
    rw [if_neg hname] at h1 h2
    simp only [add_zero] at h1 h2
    exact ⟨h1, h2⟩

/-- Manifest for the C1 witness. -/
def witC1_manifest : List SFNode :=
  [⟨"model", "stg_orders", none, "analytics"⟩, ⟨"model", "dim_customers", none, "analytics"⟩]

/-- A query referencing both models of the witness manifest. -/
def witC1_q : NormRecord :=
  ⟨"split-001", "SELECT * FROM analytics.stg_orders JOIN analytics.dim_customers ON 1=1",
   "WH", 100, 10, 50, "2024-01-20T00:00:00"⟩

/-- C1 witness: the theorem applied at a concrete manifest and query, with
the matched-model membership hypothesis discharged by computation. -/
theorem claim_C1_witness :
    qcountOf (attribute_cost_to_model ([] ++ [witC1_q]) witC1_manifest) "stg_orders"
      = qcountOf (attribute_cost_to_model [] witC1_manifest) "stg_orders" + 1
    ∧ creditsOf (attribute_cost_to_model ([] ++ [witC1_q]) witC1_manifest) "stg_orders"
      = creditsOf (attribute_cost_to_model [] witC1_manifest) "stg_orders"
        + witC1_q.credits_used
          / ((effMatches (_extract_model_names_from_manifest witC1_manifest) witC1_q).length : ℚ) :=
  (claim_C1 witC1_manifest [] witC1_q).2.2.1 "stg_orders" (by decide)

end Snowflake

/-! ### Claim C8: query-history validation and defaulting -/

namespace Snowflake

/-- Whether a JSON value is an array (`isinstance(raw, list)`). -/
def isArr : Json → Bool
  | .arr _ => true
  | _ => false

theorem except_bind_error {ε α β : Type} (e : ε) (f : α → Except ε β) :
    (Except.error e : Except ε α) >>= f = Except.error e := rfl

theorem except_bind_ok {ε α β : Type} (a : α) (f : α → Except ε β) :
    (Except.ok a : Except ε α) >>= f = f a := rfl

theorem except_map_error {ε α β : Type} (e : ε) (f : α → β) :
    (f <$> (Except.error e : Except ε α)) = Except.error e := rfl

theorem except_map_ok {ε α β : Type} (a : α) (f : α → β) :
    (f <$> (Except.ok a : Except ε α)) = Except.ok (f a) := rfl

theorem normalizeRow_ok_iff (r : Json) : exceptOk (normalizeRow r) = rowConvOk r := by
  cases r with
  | obj fields =>
      unfold normalizeRow rowConvOk
      cases hb : pyInt (get2 fields "BYTES_SCANNED" "bytes_scanned" (.int 0)) with
      | error e => simp [hb, exceptOk, except_bind_error]
      | ok b =>
          cases hc : pyFloat (get2 fields "CREDITS_USED" "credits_used" (.float 0)) with
          | error e => simp [hb, hc, exceptOk, except_bind_error, except_bind_ok]
          | ok c =>
              cases he : pyInt (get2 fields "EXECUTION_TIME" "execution_time" (.int 0)) with
              | error e =>
                  simp [hb, hc, he, exceptOk, except_bind_error, except_bind_ok, except_map_error]
              | ok e =>
                  simp [hb, hc, he, exceptOk, except_bind_ok, except_map_ok]
  | null => rfl
  | bool b => rfl
  | int n => rfl
  | float q => rfl
  | str s => rfl
  | arr l => rfl

theorem normalizeAll_ok_iff (rows : List Json) :
    exceptOk (normalizeAll rows) = rows.all rowConvOk := by
  induction rows with
  | nil => rfl
  | cons r rest ih =>
      rw [List.all_cons, ← normalizeRow_ok_iff, ← ih]
      have hcons : normalizeAll (r :: rest)
          = (normalizeRow r) >>= (fun x => (normalizeAll rest) >>= fun xs => pure (x :: xs)) := rfl
      rw [hcons]
      cases hr : normalizeRow r with
      | error e => simp [except_bind_error, exceptOk]
      | ok x =>
          rw [except_bind_ok]
          cases hrest : normalizeAll rest with
          | error e => simp [except_bind_error, exceptOk]
          | ok xs => rfl

/-- C8 (amended): `parse_query_history` raises its validation error whenever
the top-level parsed input is not an array (producing no partial result), and
for array input it succeeds exactly when every row is an object whose present
numeric fields convert — missing fields are tolerated via defaulting (empty
string / zero), but a non-object row or a malformed present value (e.g. a
non-numeric string in a numeric field) does raise. -/
theorem claim_C8 :
    (∀ j : Json, isArr j = false →
      parse_query_history j = .error (.valueError "Expected a JSON array of query records"))
    ∧ (∀ rows : List Json,
        exceptOk (parse_query_history (.arr rows)) = rows.all rowConvOk)
    ∧ parse_query_history (.arr [.obj []]) = .ok [⟨"", "", "", 0, 0, 0, ""⟩] := by
  refine ⟨?_, ?_, rfl⟩
  · intro j hj
    cases j with
    | arr l => exact absurd hj (by simp [isArr])
    | null => rfl
    | bool b => rfl
    | int n => rfl
    | float q => rfl
    | str s => rfl
    | obj fields => rfl
  · intro rows
    exact normalizeAll_ok_iff rows

/-- C8 counterexample: on an array input whose single row carries a
non-numeric `BYTES_SCANNED` string, `parse_query_history` raises — so array
input does not guarantee the absence of errors claimed by the
"if and only if". -/
theorem claim_C8_counterexample :
    parse_query_history (.arr [.obj [("BYTES_SCANNED", .str "abc")]])
      = .error (.valueError "invalid literal for int() with base 10: abc") := by rfl

/-- C8 witness: the amended theorem applied at a non-array input and at a
concrete array input. -/
theorem claim_C8_witness :
    parse_query_history (.int 3)
      = .error (.valueError "Expected a JSON array of query records")
    ∧ exceptOk (parse_query_history (.arr [.obj [("CREDITS_USED", .float (3/2))]]))
      = ([Json.obj [("CREDITS_USED", Json.float (3/2))]].all rowConvOk) :=
  ⟨claim_C8.1 (.int 3) rfl, claim_C8.2.1 [.obj [("CREDITS_USED", .float (3/2))]]⟩

end Snowflake

/-! ### Claim C9: totality of the aggregation paths -/

theorem rhe_zero : rhe 0 = 0 := by
  have h := rhe_intCast 0
  simpa using h

theorem roundTo_zero (d : Nat) : roundTo d 0 = 0 := by
  unfold roundTo
  rw [zero_mul, rhe_zero]
  simp

namespace Snowflake

/-- C9 (confirmed): the aggregation paths are total under their guards — an
empty or unparsable per-event start-time string is bucketed under the
`"unknown"` month key rather than raising; a month whose total credits are
exactly 0 reports percentage 0 for each ranked model instead of dividing by
zero; and the detectors' cost-share denominator `_cost_map(..).2` is never
zero, guarding their divisions against an empty (zero-total) query set. -/
theorem claim_C9 :
    (∀ s : String, (s = "" ∨ fromisoformatYM (replaceZ s).data = none) →
      monthKeyOf s = "unknown")
    ∧ (∀ (attributions : List (String × CostAttribution)) (top_n : Nat) (mk : String)
        (entry : MonthEntry),
        (mk, entry) ∈ (calculate_monthly_breakdown attributions top_n).months →
        sumValues (lookupD (monthly_buckets attributions) mk []) = 0 →
        ∀ e ∈ entry.top_models, e.pct = 0)
    ∧ (∀ queries : List Pipecost.QueryRecord, (Pipecost._cost_map queries).2 ≠ 0) := by
  refine ⟨?_, ?_, Pipecost._cost_map_total_ne⟩
  · intro s hs
    unfold monthKeyOf
    rcases hs with rfl | hs
    · rw [if_pos rfl]
    · by_cases hempty : s = ""
      · rw [if_pos hempty]
      · rw [if_neg hempty, hs]
  · intro attributions top_n mk entry hmem hzero e he
    have hmonths : (calculate_monthly_breakdown attributions top_n).months
        = (sortStrings ((monthly_buckets attributions).map (fun kv => kv.1))).map
            (fun k => (k, mkMonthEntry top_n (lookupD (monthly_buckets attributions) k []))) := rfl
    rw [hmonths, List.mem_map] at hmem
    obtain ⟨k, _, heq⟩ := hmem
    have hk : k = mk := congrArg Prod.fst heq
    subst hk
    have hentry : entry = mkMonthEntry top_n (lookupD (monthly_buckets attributions) k []) :=
      (congrArg Prod.snd heq).symm
    subst hentry
    unfold mkMonthEntry at he
    dsimp only at he
    rw [List.mem_map] at he
    obtain ⟨nc, _, hnc⟩ := he
    rw [← hnc]
    dsimp only
    rw [hzero]
    rw [if_neg (lt_irrefl 0), roundTo_zero]

/-- A single attribution with a zero-credit event in January 2024, making that
month's total exactly 0. -/
def witC9_attr : List (String × CostAttribution) :=
  [("m", ⟨"m", 0, 1, 0, 0, [], [⟨"q1", 0, "2024-01-15T00:00:00"⟩]⟩)]

/-- C9 witness: the theorem applied at an unparsable timestamp, at a concrete
zero-total month, and at the empty query set. -/
theorem claim_C9_witness :
    monthKeyOf "not a timestamp" = "unknown"
    ∧ (⟨"m", 0, 0⟩ : TopModelEntry).pct = 0
    ∧ (Pipecost._cost_map []).2 ≠ 0 := by
  refine ⟨?_, ?_, claim_C9.2.2 []⟩
  · exact claim_C9.1 "not a timestamp" (Or.inr (by decide))
  · exact claim_C9.2.1 witC9_attr 10 "2024-01" ⟨0, [⟨"m", 0, 0⟩]⟩
      (by with_unfolding_all decide) (by with_unfolding_all decide)
      ⟨"m", 0, 0⟩ (by decide)

end Snowflake
